import Mathlib

/-!
Verification of the ahnlich Python client's wire codec and transport core.

Bytes are modelled as `Nat` (meaningful values are `< 256`); byte strings as
`List Nat`.  Pure Python functions become Lean functions; the socket read loop
becomes a fuel-indexed function where exhausting any amount of fuel (`none`
for every fuel value) models non-termination of the loop.
-/

set_option maxRecDepth 4000
set_option maxHeartbeats 1600000

namespace Ahnlich

/-- Little-endian fixed-width byte encoding of `v` on `n` bytes, mirroring
Python's `int.to_bytes(n, "little")` (faithful for `v < 256 ^ n`). -/
def leBytes : Nat → Nat → List Nat
  | 0, _ => []
  | n + 1, v => v % 256 :: leBytes n (v / 256)

/-- Little-endian interpretation of a byte list, mirroring Python's
`int.from_bytes(b, byteorder="little")`. -/
def fromLeBytes : List Nat → Nat
  | [] => 0
  | b :: bs => b + 256 * fromLeBytes bs

theorem leBytes_length (n v : Nat) : (leBytes n v).length = n := by
  induction n generalizing v with
  | zero => rfl
  | succ n ih => simp [leBytes, ih]

theorem fromLeBytes_leBytes (n v : Nat) (h : v < 256 ^ n) :
    fromLeBytes (leBytes n v) = v := by
  induction n generalizing v with
  | zero =>
    simp only [pow_zero, Nat.lt_one_iff] at h
    simp [leBytes, fromLeBytes, h]
  | succ n ih =>
    have hdiv : v / 256 < 256 ^ n := by
      have h256 : v < 256 ^ n * 256 := by
        calc v < 256 ^ (n + 1) := h
        _ = 256 ^ n * 256 := by rw [pow_succ]
      omega
    simp only [leBytes, fromLeBytes, ih (v / 256) hdiv]
    omega

/-- Read exactly `n` bytes from the front of a buffer, failing when fewer are
available (the codec-level primitive for fixed-width reads). -/
def readBytes (n : Nat) (b : List Nat) : Option (List Nat × List Nat) :=
  if n ≤ b.length then some (b.take n, b.drop n) else none

theorem readBytes_append (xs rest : List Nat) :
    readBytes xs.length (xs ++ rest) = some (xs, rest) := by
  simp [readBytes, List.take_left, List.drop_left]

theorem readBytes_append_len (n : Nat) (xs rest : List Nat) (h : xs.length = n) :
    readBytes n (xs ++ rest) = some (xs, rest) := by
  subst h; exact readBytes_append xs rest

/-- Decode an `n`-byte little-endian unsigned integer. -/
def decFixed (n : Nat) (b : List Nat) : Option (Nat × List Nat) :=
  match readBytes n b with
  | some (x, r) => some (fromLeBytes x, r)
  | none => none

theorem decFixed_enc (n v : Nat) (h : v < 256 ^ n) (rest : List Nat) :
    decFixed n (leBytes n v ++ rest) = some (v, rest) := by
  have hr : readBytes n (leBytes n v ++ rest) = some (leBytes n v, rest) :=
    readBytes_append_len n (leBytes n v) rest (leBytes_length n v)
  simp [decFixed, hr, fromLeBytes_leBytes n v h]

/-- Unsigned LEB128-style varint encoding, structurally recursive on a
fuel bound so the kernel can evaluate it; the fuel never runs out when it
starts at least at `n` (each step divides by 128), so the fuel-exhausted
branch is unreachable from `encUleb`. -/
def encUlebGo : Nat → Nat → List Nat
  | 0, n => [n % 128]
  | f + 1, n => if n < 128 then [n] else (n % 128 + 128) :: encUlebGo f (n / 128)

/-- Unsigned LEB128-style varint encoding, used by the codec for sequence
and map counts and for variant discriminants (continuation bit in the high
bit of each byte). -/
def encUleb (n : Nat) : List Nat := encUlebGo (n + 1) n

/-- Unsigned LEB128-style varint decoding. -/
def decUleb : List Nat → Option (Nat × List Nat)
  | [] => none
  | b :: rest =>
    if b < 128 then some (b, rest)
    else
      match decUleb rest with
      | some (m, r) => some (b - 128 + 128 * m, r)
      | none => none

theorem decUleb_encGo (fuel : Nat) :
    ∀ n rest, n < fuel → decUleb (encUlebGo fuel n ++ rest) = some (n, rest) := by
  induction fuel with
  | zero => intro n rest h; omega
  | succ f ih =>
    intro n rest h
    by_cases hn : n < 128
    · simp [encUlebGo, hn, decUleb]
    · have hlt : n / 128 < f := by
        have := Nat.div_lt_self (n := n) (by omega) (by omega : 1 < 128)
        omega
      simp only [encUlebGo, if_neg hn, List.cons_append, decUleb]
      rw [if_neg (by omega), ih (n / 128) rest hlt]
      have heq : n % 128 + 128 - 128 + 128 * (n / 128) = n := by omega
      simp only [heq]

theorem decUleb_enc (n : Nat) (rest : List Nat) :
    decUleb (encUleb n ++ rest) = some (n, rest) :=
  decUleb_encGo (n + 1) n rest (by omega)

/-- Boolean field encoding: one byte, `0` or `1`. -/
def encBool (x : Bool) : List Nat := [cond x 1 0]

/-- Boolean field decoding: any byte other than `0`/`1` is a decode error. -/
def decBool : List Nat → Option (Bool × List Nat)
  | 0 :: r => some (false, r)
  | 1 :: r => some (true, r)
  | _ => none

theorem decBool_enc (x : Bool) (rest : List Nat) :
    decBool (encBool x ++ rest) = some (x, rest) := by
  cases x <;> rfl

/-- Wire strings: the UTF-8 bytes of a Python `str`, modelled as the raw byte
list, encoded as a varint byte length followed by the bytes. -/
def encStr (s : List Nat) : List Nat := encUleb s.length ++ s

/-- Wire string decoding: varint length then that many raw bytes. -/
def decStr (b : List Nat) : Option (List Nat × List Nat) :=
  match decUleb b with
  | some (n, r) => readBytes n r
  | none => none

theorem decStr_enc (s rest : List Nat) : decStr (encStr s ++ rest) = some (s, rest) := by
  simp [encStr, decStr, List.append_assoc, decUleb_enc, readBytes_append]

/-- Optional value encoding: one presence byte, then the value when present. -/
def encOpt {α : Type} (f : α → List Nat) : Option α → List Nat
  | none => [0]
  | some x => 1 :: f x

/-- Optional value decoding. -/
def decOpt {α : Type} (d : List Nat → Option (α × List Nat)) :
    List Nat → Option (Option α × List Nat)
  | 0 :: r => some (none, r)
  | 1 :: r =>
    match d r with
    | some (x, r') => some (some x, r')
    | none => none
  | _ => none

theorem decOpt_enc {α : Type} (d : List Nat → Option (α × List Nat))
    (f : α → List Nat) (x : Option α) (rest : List Nat)
    (h : ∀ a, x = some a → ∀ r, d (f a ++ r) = some (a, r)) :
    decOpt d (encOpt f x ++ rest) = some (x, rest) := by
  cases x with
  | none => rfl
  | some a => simp [encOpt, decOpt, h a rfl rest]

/-- Concatenation of the element encodings of a sequence. -/
def encAll {α : Type} (f : α → List Nat) : List α → List Nat
  | [] => []
  | x :: xs => f x ++ encAll f xs

/-- Sequence encoding: varint count followed by the element encodings. -/
def encSeq {α : Type} (f : α → List Nat) (xs : List α) : List Nat :=
  encUleb xs.length ++ encAll f xs

/-- Decode exactly `n` consecutive elements. -/
def decListN {α : Type} (d : List Nat → Option (α × List Nat)) :
    Nat → List Nat → Option (List α × List Nat)
  | 0, b => some ([], b)
  | n + 1, b =>
    match d b with
    | some (x, b') =>
      match decListN d n b' with
      | some (xs, b'') => some (x :: xs, b'')
      | none => none
    | none => none

/-- Sequence decoding: varint count then that many elements. -/
def decSeq {α : Type} (d : List Nat → Option (α × List Nat))
    (b : List Nat) : Option (List α × List Nat) :=
  match decUleb b with
  | some (n, r) => decListN d n r
  | none => none

theorem decListN_encAll {α : Type} (d : List Nat → Option (α × List Nat))
    (f : α → List Nat) (xs : List α) (rest : List Nat)
    (h : ∀ x ∈ xs, ∀ r, d (f x ++ r) = some (x, r)) :
    decListN d xs.length (encAll f xs ++ rest) = some (xs, rest) := by
  induction xs with
  | nil => simp [encAll, decListN]
  | cons x xs ih =>
    have hx := h x (by simp) (encAll f xs ++ rest)
    simp only [encAll, List.length_cons, decListN, List.append_assoc, hx]
    rw [ih (fun y hy r => h y (by simp [hy]) r)]

theorem decSeq_enc {α : Type} (d : List Nat → Option (α × List Nat))
    (f : α → List Nat) (xs : List α) (rest : List Nat)
    (h : ∀ x ∈ xs, ∀ r, d (f x ++ r) = some (x, r)) :
    decSeq d (encSeq f xs ++ rest) = some (xs, rest) := by
  simp only [encSeq, decSeq, List.append_assoc, decUleb_enc]
  exact decListN_encAll d f xs rest h

/-- Pair (tuple field) encoding: the two encodings in order. -/
def encPair {α β : Type} (f : α → List Nat) (g : β → List Nat) (p : α × β) : List Nat :=
  f p.1 ++ g p.2

/-- Pair (tuple field) decoding. -/
def decPair {α β : Type} (da : List Nat → Option (α × List Nat))
    (db : List Nat → Option (β × List Nat)) (b : List Nat) :
    Option ((α × β) × List Nat) :=
  match da b with
  | some (x, r) =>
    match db r with
    | some (y, r') => some ((x, y), r')
    | none => none
  | none => none

theorem decPair_enc {α β : Type} (da : List Nat → Option (α × List Nat))
    (db : List Nat → Option (β × List Nat)) (f : α → List Nat) (g : β → List Nat)
    (p : α × β) (rest : List Nat)
    (ha : ∀ r, da (f p.1 ++ r) = some (p.1, r))
    (hb : ∀ r, db (g p.2 ++ r) = some (p.2, r)) :
    decPair da db (encPair f g p ++ rest) = some (p, rest) := by
  simp [encPair, decPair, List.append_assoc, ha, hb]

/-! ## Data model

The generated request/response types of
`ahnlich_client_py/internals/db_query.py` and `db_response.py`.  Python
`str` fields are modelled as their UTF-8 byte lists, `st.uintN` fields as
`Nat` (bounded by the well-formedness predicates below), and `st.float32`
fields as their 32-bit IEEE-754 bit patterns (`Nat < 2 ^ 32`), which is what
the codec actually moves over the wire. -/

/-- The `Algorithm` union of db_query.py (discriminants 0-3 in declared
order). -/
inductive Algorithm
  | euclideanDistance
  | dotProductSimilarity
  | cosineSimilarity
  | kdtree
deriving DecidableEq

/-- The `NonLinearAlgorithm` union of db_query.py (single variant `KDTree`,
discriminant 0). -/
inductive NonLinearAlgorithm
  | kdtree
deriving DecidableEq

/-- The `Array` struct of db_query.py: version byte `v` (u8), the
single-element dimension tuple `dim` (u64), and the `data` f32 sequence. -/
structure Array where
  v : Nat
  dim : Nat
  data : List Nat
deriving DecidableEq

/-- The `MetadataValue` union of db_query.py: `RawString` (a string) or
`Image` (a u8 sequence). -/
inductive MetadataValue
  | rawString (value : List Nat)
  | image (value : List Nat)
deriving DecidableEq

/-- The `Predicate` union of db_query.py (discriminants 0-3): leaf
predicates over a key and one or more metadata values. -/
inductive Predicate
  | equals (key : List Nat) (value : MetadataValue)
  | notEquals (key : List Nat) (value : MetadataValue)
  | isIn (key : List Nat) (value : List MetadataValue)
  | notIn (key : List Nat) (value : List MetadataValue)
deriving DecidableEq

/-- The recursive `PredicateCondition` union of db_query.py: a leaf
`Value` predicate or an `And`/`Or` pair of sub-conditions. -/
inductive PredicateCondition
  | value (v : Predicate)
  | and (l r : PredicateCondition)
  | or (l r : PredicateCondition)
deriving DecidableEq

/-- One metadata map entry: a string key paired with a `MetadataValue`
(Python `Dict[str, MetadataValue]` is modelled as its insertion-ordered
entry list). -/
abbrev MetaMap := List (List Nat × MetadataValue)

/-- The `Query` union of db_query.py, discriminants 0-15 in declared
order, with each variant's fields in declaration order. -/
inductive Query
  | createStore (store : List Nat) (dimension : Nat)
      (create_predicates : List (List Nat))
      (non_linear_indices : List NonLinearAlgorithm) (error_if_exists : Bool)
  | getKey (store : List Nat) (keys : List Array)
  | getPred (store : List Nat) (condition : PredicateCondition)
  | getSimN (store : List Nat) (search_input : Array) (closest_n : Nat)
      (algorithm : Algorithm) (condition : Option PredicateCondition)
  | createPredIndex (store : List Nat) (predicates : List (List Nat))
  | createNonLinearAlgorithmIndex (store : List Nat)
      (non_linear_indices : List NonLinearAlgorithm)
  | dropPredIndex (store : List Nat) (predicates : List (List Nat))
      (error_if_not_exists : Bool)
  | dropNonLinearAlgorithmIndex (store : List Nat)
      (non_linear_indices : List NonLinearAlgorithm) (error_if_not_exists : Bool)
  | set (store : List Nat) (inputs : List (Array × MetaMap))
  | delKey (store : List Nat) (keys : List Array)
  | delPred (store : List Nat) (condition : PredicateCondition)
  | dropStore (store : List Nat) (error_if_not_exists : Bool)
  | infoServer
  | listStores
  | listClients
  | ping
deriving DecidableEq

/-- The `ServerQuery` batch envelope of db_query.py: the ordered query
list plus an optional trace identifier. -/
structure ServerQuery where
  queries : List Query
  trace_id : Option (List Nat)
deriving DecidableEq

/-- The `SystemTime` struct of db_response.py (u64 seconds, u32 nanos). -/
structure SystemTime where
  secs_since_epoch : Nat
  nanos_since_epoch : Nat
deriving DecidableEq

/-- The `ConnectedClient` struct of db_response.py. -/
structure ConnectedClient where
  address : List Nat
  time_connected : SystemTime
deriving DecidableEq

/-- The `Version` struct of db_response.py: u8 major, u16 minor, u16
patch. -/
structure Version where
  major : Nat
  minor : Nat
  patch : Nat
deriving DecidableEq

/-- The `ServerType` union of db_response.py. -/
inductive ServerType
  | database
  | ai
deriving DecidableEq

/-- The `ServerInfo` struct of db_response.py. -/
structure ServerInfo where
  address : List Nat
  version : Version
  type : ServerType
  limit : Nat
  remaining : Nat
deriving DecidableEq

/-- The `StoreInfo` struct of db_response.py. -/
structure StoreInfo where
  name : List Nat
  len : Nat
  size_in_bytes : Nat
deriving DecidableEq

/-- The `StoreUpsert` struct of db_response.py (inserted and updated
counts). -/
structure StoreUpsert where
  inserted : Nat
  updated : Nat
deriving DecidableEq

/-- The `Similarity` struct of db_response.py (one f32, modelled by its
bit pattern). -/
structure Similarity where
  value : Nat
deriving DecidableEq

/-- The `ServerResponse` union of db_response.py, discriminants 0-9 in
declared order. -/
inductive ServerResponse
  | unit
  | pong
  | clientList (value : List ConnectedClient)
  | storeList (value : List StoreInfo)
  | infoServer (value : ServerInfo)
  | set (value : StoreUpsert)
  | get (value : List (Array × MetaMap))
  | getSimN (value : List (Array × (MetaMap × Similarity)))
  | del (value : Nat)
  | createIndex (value : Nat)
deriving DecidableEq

/-- The per-request `Result` union of db_response.py: exactly two
alternatives, success with a `ServerResponse` payload (discriminant 0) or
failure with an error string (discriminant 1). -/
inductive Result
  | ok (value : ServerResponse)
  | err (value : List Nat)
deriving DecidableEq

/-- The `ServerResult` response envelope of db_response.py: the ordered
outcome list. -/
structure ServerResult where
  results : List Result
deriving DecidableEq

/-! ## Tagged-variant codec, encode side

The repository's bincode runtime (`ahnlich_client_py/internals/bincode` and
`serde_types`, imported by every generated type but absent from the source
tree) is modelled from the spec here: structs are the concatenation of their
field encodings in declaration order, variants are the integer discriminant
followed by the payload, fixed-width scalars are little-endian, strings and
byte sequences are length-prefixed, sequence/map counts and discriminants
use the continuation-bit varint scheme, options are a one-byte presence
flag. -/

/-- Modelled from the spec: bincode encoding of the `Algorithm` union
(missing `internals/bincode` runtime) — discriminant with unit payload. -/
def encAlgorithm : Algorithm → List Nat
  | .euclideanDistance => encUleb 0
  | .dotProductSimilarity => encUleb 1
  | .cosineSimilarity => encUleb 2
  | .kdtree => encUleb 3

/-- Modelled from the spec: bincode encoding of `NonLinearAlgorithm`
(missing `internals/bincode` runtime). -/
def encNonLinear : NonLinearAlgorithm → List Nat
  | .kdtree => encUleb 0

/-- Modelled from the spec: bincode encoding of the `Array` struct (missing
`internals/bincode` runtime) — u8 `v`, u64 `dim`, then the f32 sequence as a
count followed by 4-byte little-endian bit patterns. -/
def encArray (a : Array) : List Nat :=
  leBytes 1 a.v ++ leBytes 8 a.dim ++ encSeq (leBytes 4) a.data

/-- Modelled from the spec: bincode encoding of `MetadataValue` (missing
`internals/bincode` runtime). -/
def encMeta : MetadataValue → List Nat
  | .rawString s => encUleb 0 ++ encStr s
  | .image bs => encUleb 1 ++ encSeq (leBytes 1) bs

/-- Modelled from the spec: bincode encoding of one string-keyed map entry
(missing `internals/bincode` runtime). -/
def encEntry : List Nat × MetadataValue → List Nat :=
  encPair encStr encMeta

/-- Modelled from the spec: bincode encoding of a metadata map (missing
`internals/bincode` runtime) — entry count then the `(key, value)` pairs. -/
def encMap (m : MetaMap) : List Nat :=
  encSeq encEntry m

/-- Modelled from the spec: bincode encoding of the `Predicate` union
(missing `internals/bincode` runtime). -/
def encPredicate : Predicate → List Nat
  | .equals k v => encUleb 0 ++ encStr k ++ encMeta v
  | .notEquals k v => encUleb 1 ++ encStr k ++ encMeta v
  | .isIn k vs => encUleb 2 ++ encStr k ++ encSeq encMeta vs
  | .notIn k vs => encUleb 3 ++ encStr k ++ encSeq encMeta vs

/-- Modelled from the spec: bincode encoding of the recursive
`PredicateCondition` union (missing `internals/bincode` runtime). -/
def encPC : PredicateCondition → List Nat
  | .value p => encUleb 0 ++ encPredicate p
  | .and l r => encUleb 1 ++ encPC l ++ encPC r
  | .or l r => encUleb 2 ++ encPC l ++ encPC r

/-- Modelled from the spec: bincode encoding of the `Query` union (missing
`internals/bincode` runtime) — discriminant 0-15 then the variant's fields
in declaration order. -/
def encQuery : Query → List Nat
  | .createStore store dimension create_predicates non_linear_indices error_if_exists =>
      encUleb 0 ++ encStr store ++ leBytes 8 dimension ++
      encSeq encStr create_predicates ++ encSeq encNonLinear non_linear_indices ++
      encBool error_if_exists
  | .getKey store keys => encUleb 1 ++ encStr store ++ encSeq encArray keys
  | .getPred store condition => encUleb 2 ++ encStr store ++ encPC condition
  | .getSimN store search_input closest_n algorithm condition =>
      encUleb 3 ++ encStr store ++ encArray search_input ++ leBytes 8 closest_n ++
      encAlgorithm algorithm ++ encOpt encPC condition
  | .createPredIndex store predicates =>
      encUleb 4 ++ encStr store ++ encSeq encStr predicates
  | .createNonLinearAlgorithmIndex store non_linear_indices =>
      encUleb 5 ++ encStr store ++ encSeq encNonLinear non_linear_indices
  | .dropPredIndex store predicates error_if_not_exists =>
      encUleb 6 ++ encStr store ++ encSeq encStr predicates ++ encBool error_if_not_exists
  | .dropNonLinearAlgorithmIndex store non_linear_indices error_if_not_exists =>
      encUleb 7 ++ encStr store ++ encSeq encNonLinear non_linear_indices ++
      encBool error_if_not_exists
  | .set store inputs =>
      encUleb 8 ++ encStr store ++ encSeq (encPair encArray encMap) inputs
  | .delKey store keys => encUleb 9 ++ encStr store ++ encSeq encArray keys
  | .delPred store condition => encUleb 10 ++ encStr store ++ encPC condition
  | .dropStore store error_if_not_exists =>
      encUleb 11 ++ encStr store ++ encBool error_if_not_exists
  | .infoServer => encUleb 12
  | .listStores => encUleb 13
  | .listClients => encUleb 14
  | .ping => encUleb 15

/-- Modelled from the spec: bincode encoding of the `ServerQuery` batch
envelope (missing `internals/bincode` runtime) — the query sequence then the
optional trace identifier. -/
def ServerQuery.bincode_serialize (sq : ServerQuery) : List Nat :=
  encSeq encQuery sq.queries ++ encOpt encStr sq.trace_id

/-- Modelled from the spec: bincode encoding of the `Version` struct
(missing `internals/bincode` runtime) — u8 major, u16 minor, u16 patch,
little-endian, 5 bytes in total. -/
def Version.bincode_serialize (v : Version) : List Nat :=
  leBytes 1 v.major ++ leBytes 2 v.minor ++ leBytes 2 v.patch

/-- Modelled from the spec: bincode encoding of `SystemTime` (missing
`internals/bincode` runtime). -/
def encSystemTime (t : SystemTime) : List Nat :=
  leBytes 8 t.secs_since_epoch ++ leBytes 4 t.nanos_since_epoch

/-- Modelled from the spec: bincode encoding of `ConnectedClient` (missing
`internals/bincode` runtime). -/
def encConnectedClient (c : ConnectedClient) : List Nat :=
  encStr c.address ++ encSystemTime c.time_connected

/-- Modelled from the spec: bincode encoding of `ServerType` (missing
`internals/bincode` runtime). -/
def encServerType : ServerType → List Nat
  | .database => encUleb 0
  | .ai => encUleb 1

/-- Modelled from the spec: bincode encoding of `ServerInfo` (missing
`internals/bincode` runtime). -/
def encServerInfo (s : ServerInfo) : List Nat :=
  encStr s.address ++ Version.bincode_serialize s.version ++ encServerType s.type ++
  leBytes 8 s.limit ++ leBytes 8 s.remaining

/-- Modelled from the spec: bincode encoding of `StoreInfo` (missing
`internals/bincode` runtime). -/
def encStoreInfo (s : StoreInfo) : List Nat :=
  encStr s.name ++ leBytes 8 s.len ++ leBytes 8 s.size_in_bytes

/-- Modelled from the spec: bincode encoding of `StoreUpsert` (missing
`internals/bincode` runtime). -/
def encStoreUpsert (s : StoreUpsert) : List Nat :=
  leBytes 8 s.inserted ++ leBytes 8 s.updated

/-- Modelled from the spec: bincode encoding of `Similarity` (missing
`internals/bincode` runtime). -/
def encSimilarity (s : Similarity) : List Nat :=
  leBytes 4 s.value

/-- Modelled from the spec: bincode encoding of the `ServerResponse` union
(missing `internals/bincode` runtime) — discriminant 0-9 then the payload. -/
def encServerResponse : ServerResponse → List Nat
  | .unit => encUleb 0
  | .pong => encUleb 1
  | .clientList v => encUleb 2 ++ encSeq encConnectedClient v
  | .storeList v => encUleb 3 ++ encSeq encStoreInfo v
  | .infoServer v => encUleb 4 ++ encServerInfo v
  | .set v => encUleb 5 ++ encStoreUpsert v
  | .get v => encUleb 6 ++ encSeq (encPair encArray encMap) v
  | .getSimN v => encUleb 7 ++ encSeq (encPair encArray (encPair encMap encSimilarity)) v
  | .del v => encUleb 8 ++ leBytes 8 v
  | .createIndex v => encUleb 9 ++ leBytes 8 v

/-- Modelled from the spec: bincode encoding of the two-alternative
`Result` union (missing `internals/bincode` runtime) — success payload or
failure message. -/
def encResult : Result → List Nat
  | .ok v => encUleb 0 ++ encServerResponse v
  | .err s => encUleb 1 ++ encStr s

/-- Modelled from the spec: bincode encoding of the `ServerResult` response
envelope (missing `internals/bincode` runtime). -/
def ServerResult.bincode_serialize (r : ServerResult) : List Nat :=
  encSeq encResult r.results

/-! ## Tagged-variant codec, decode side

Each decoder consumes a prefix of the buffer and returns the value plus the
unconsumed remainder, failing (`none`) on an out-of-range discriminant or a
truncated buffer — closed-world decoding per the spec. -/

/-- Sequencing of fallible decode steps (explicit `Option` bind, kept as a
definition so proofs can rewrite with `obind_some`). -/
def obind {α β : Type} : Option α → (α → Option β) → Option β
  | some a, f => f a
  | none, _ => none

theorem obind_some {α β : Type} (a : α) (f : α → Option β) :
    obind (some a) f = f a := rfl

theorem obind_none {α β : Type} (f : α → Option β) :
    obind (none : Option α) f = none := rfl

/-- Modelled from the spec: bincode decoding of `Algorithm` (missing
`internals/bincode` runtime); discriminants outside 0-3 fail. -/
def decAlgorithm (b : List Nat) : Option (Algorithm × List Nat) :=
  obind (decUleb b) fun (i, b) =>
  match i with
  | 0 => some (.euclideanDistance, b)
  | 1 => some (.dotProductSimilarity, b)
  | 2 => some (.cosineSimilarity, b)
  | 3 => some (.kdtree, b)
  | _ => none

/-- Modelled from the spec: bincode decoding of `NonLinearAlgorithm`
(missing `internals/bincode` runtime). -/
def decNonLinear (b : List Nat) : Option (NonLinearAlgorithm × List Nat) :=
  obind (decUleb b) fun (i, b) =>
  match i with
  | 0 => some (.kdtree, b)
  | _ => none

/-- Modelled from the spec: bincode decoding of the `Array` struct (missing
`internals/bincode` runtime). -/
def decArray (b : List Nat) : Option (Array × List Nat) :=
  obind (decFixed 1 b) fun (v, b) =>
  obind (decFixed 8 b) fun (dim, b) =>
  obind (decSeq (decFixed 4) b) fun (data, b) =>
  some (⟨v, dim, data⟩, b)

/-- Modelled from the spec: bincode decoding of `MetadataValue` (missing
`internals/bincode` runtime). -/
def decMeta (b : List Nat) : Option (MetadataValue × List Nat) :=
  obind (decUleb b) fun (i, b) =>
  match i with
  | 0 => obind (decStr b) fun (s, b) => some (.rawString s, b)
  | 1 => obind (decSeq (decFixed 1) b) fun (bs, b) => some (.image bs, b)
  | _ => none

/-- Modelled from the spec: bincode decoding of one map entry (missing
`internals/bincode` runtime). -/
def decEntry : List Nat → Option ((List Nat × MetadataValue) × List Nat) :=
  decPair decStr decMeta

/-- Modelled from the spec: bincode decoding of a metadata map (missing
`internals/bincode` runtime). -/
def decMap (b : List Nat) : Option (MetaMap × List Nat) :=
  decSeq decEntry b

/-- Modelled from the spec: bincode decoding of `Predicate` (missing
`internals/bincode` runtime). -/
def decPredicate (b : List Nat) : Option (Predicate × List Nat) :=
  obind (decUleb b) fun (i, b) =>
  match i with
  | 0 => obind (decStr b) fun (k, b) => obind (decMeta b) fun (v, b) =>
         some (.equals k v, b)
  | 1 => obind (decStr b) fun (k, b) => obind (decMeta b) fun (v, b) =>
         some (.notEquals k v, b)
  | 2 => obind (decStr b) fun (k, b) => obind (decSeq decMeta b) fun (vs, b) =>
         some (.isIn k vs, b)
  | 3 => obind (decStr b) fun (k, b) => obind (decSeq decMeta b) fun (vs, b) =>
         some (.notIn k vs, b)
  | _ => none

/-- Modelled from the spec: fuel-indexed bincode decoding of the recursive
`PredicateCondition` union (missing `internals/bincode` runtime).  The fuel
only bounds recursion depth; `decPC` below supplies more fuel than any
buffer can need, so exhaustion never fires on well-formed input. -/
def decPCF (fuel : Nat) (b : List Nat) : Option (PredicateCondition × List Nat) :=
  match fuel with
  | 0 => none
  | fuel + 1 =>
    obind (decUleb b) fun (i, b) =>
    match i with
    | 0 => obind (decPredicate b) fun (p, b) => some (.value p, b)
    | 1 => obind (decPCF fuel b) fun (l, b) =>
           obind (decPCF fuel b) fun (r, b) => some (.and l r, b)
    | 2 => obind (decPCF fuel b) fun (l, b) =>
           obind (decPCF fuel b) fun (r, b) => some (.or l r, b)
    | _ => none

/-- Modelled from the spec: bincode decoding of `PredicateCondition`
(missing `internals/bincode` runtime), with fuel strictly larger than the
buffer length. -/
def decPC (b : List Nat) : Option (PredicateCondition × List Nat) :=
  decPCF (b.length + 1) b

/-- Modelled from the spec: bincode decoding of the `Query` union (missing
`internals/bincode` runtime); discriminants outside 0-15 fail. -/
def decQuery (b : List Nat) : Option (Query × List Nat) :=
  obind (decUleb b) fun (i, b) =>
  match i with
  | 0 => obind (decStr b) fun (store, b) =>
         obind (decFixed 8 b) fun (dimension, b) =>
         obind (decSeq decStr b) fun (cps, b) =>
         obind (decSeq decNonLinear b) fun (nli, b) =>
         obind (decBool b) fun (eie, b) =>
         some (.createStore store dimension cps nli eie, b)
  | 1 => obind (decStr b) fun (store, b) =>
         obind (decSeq decArray b) fun (keys, b) =>
         some (.getKey store keys, b)
  | 2 => obind (decStr b) fun (store, b) =>
         obind (decPC b) fun (c, b) =>
         some (.getPred store c, b)
  | 3 => obind (decStr b) fun (store, b) =>
         obind (decArray b) fun (si, b) =>
         obind (decFixed 8 b) fun (cn, b) =>
         obind (decAlgorithm b) fun (alg, b) =>
         obind (decOpt decPC b) fun (c, b) =>
         some (.getSimN store si cn alg c, b)
  | 4 => obind (decStr b) fun (store, b) =>
         obind (decSeq decStr b) fun (ps, b) =>
         some (.createPredIndex store ps, b)
  | 5 => obind (decStr b) fun (store, b) =>
         obind (decSeq decNonLinear b) fun (nli, b) =>
         some (.createNonLinearAlgorithmIndex store nli, b)
  | 6 => obind (decStr b) fun (store, b) =>
         obind (decSeq decStr b) fun (ps, b) =>
         obind (decBool b) fun (eine, b) =>
         some (.dropPredIndex store ps eine, b)
  | 7 => obind (decStr b) fun (store, b) =>
         obind (decSeq decNonLinear b) fun (nli, b) =>
         obind (decBool b) fun (eine, b) =>
         some (.dropNonLinearAlgorithmIndex store nli eine, b)
  | 8 => obind (decStr b) fun (store, b) =>
         obind (decSeq (decPair decArray decMap) b) fun (inputs, b) =>
         some (.set store inputs, b)
  | 9 => obind (decStr b) fun (store, b) =>
         obind (decSeq decArray b) fun (keys, b) =>
         some (.delKey store keys, b)
  | 10 => obind (decStr b) fun (store, b) =>
          obind (decPC b) fun (c, b) =>
          some (.delPred store c, b)
  | 11 => obind (decStr b) fun (store, b) =>
          obind (decBool b) fun (eine, b) =>
          some (.dropStore store eine, b)
  | 12 => some (.infoServer, b)
  | 13 => some (.listStores, b)
  | 14 => some (.listClients, b)
  | 15 => some (.ping, b)
  | _ => none

/-- Modelled from the spec: bincode decoding of the `ServerQuery` envelope
prefix (missing `internals/bincode` runtime), returning the unconsumed
remainder. -/
def decServerQuery (b : List Nat) : Option (ServerQuery × List Nat) :=
  obind (decSeq decQuery b) fun (qs, b) =>
  obind (decOpt decStr b) fun (tid, b) =>
  some (⟨qs, tid⟩, b)

/-- The generated `ServerQuery.bincode_deserialize` wrapper of db_query.py:
decode the envelope and fail when any input bytes were not read. -/
def ServerQuery.bincode_deserialize (input : List Nat) : Option ServerQuery :=
  match decServerQuery input with
  | some (v, []) => some v
  | _ => none

/-- Modelled from the spec: bincode decoding of `SystemTime` (missing
`internals/bincode` runtime). -/
def decSystemTime (b : List Nat) : Option (SystemTime × List Nat) :=
  obind (decFixed 8 b) fun (s, b) =>
  obind (decFixed 4 b) fun (n, b) =>
  some (⟨s, n⟩, b)

/-- Modelled from the spec: bincode decoding of `ConnectedClient` (missing
`internals/bincode` runtime). -/
def decConnectedClient (b : List Nat) : Option (ConnectedClient × List Nat) :=
  obind (decStr b) fun (a, b) =>
  obind (decSystemTime b) fun (t, b) =>
  some (⟨a, t⟩, b)

/-- Modelled from the spec: bincode decoding of the `Version` struct
(missing `internals/bincode` runtime). -/
def decVersion (b : List Nat) : Option (Version × List Nat) :=
  obind (decFixed 1 b) fun (ma, b) =>
  obind (decFixed 2 b) fun (mi, b) =>
  obind (decFixed 2 b) fun (pa, b) =>
  some (⟨ma, mi, pa⟩, b)

/-- Modelled from the spec: bincode decoding of `ServerType` (missing
`internals/bincode` runtime). -/
def decServerType (b : List Nat) : Option (ServerType × List Nat) :=
  obind (decUleb b) fun (i, b) =>
  match i with
  | 0 => some (.database, b)
  | 1 => some (.ai, b)
  | _ => none

/-- Modelled from the spec: bincode decoding of `ServerInfo` (missing
`internals/bincode` runtime). -/
def decServerInfo (b : List Nat) : Option (ServerInfo × List Nat) :=
  obind (decStr b) fun (a, b) =>
  obind (decVersion b) fun (v, b) =>
  obind (decServerType b) fun (t, b) =>
  obind (decFixed 8 b) fun (l, b) =>
  obind (decFixed 8 b) fun (r, b) =>
  some (⟨a, v, t, l, r⟩, b)

/-- Modelled from the spec: bincode decoding of `StoreInfo` (missing
`internals/bincode` runtime). -/
def decStoreInfo (b : List Nat) : Option (StoreInfo × List Nat) :=
  obind (decStr b) fun (n, b) =>
  obind (decFixed 8 b) fun (l, b) =>
  obind (decFixed 8 b) fun (s, b) =>
  some (⟨n, l, s⟩, b)

/-- Modelled from the spec: bincode decoding of `StoreUpsert` (missing
`internals/bincode` runtime). -/
def decStoreUpsert (b : List Nat) : Option (StoreUpsert × List Nat) :=
  obind (decFixed 8 b) fun (i, b) =>
  obind (decFixed 8 b) fun (u, b) =>
  some (⟨i, u⟩, b)

/-- Modelled from the spec: bincode decoding of `Similarity` (missing
`internals/bincode` runtime). -/
def decSimilarity (b : List Nat) : Option (Similarity × List Nat) :=
  obind (decFixed 4 b) fun (v, b) =>
  some (⟨v⟩, b)

/-- Modelled from the spec: bincode decoding of the `ServerResponse` union
(missing `internals/bincode` runtime); discriminants outside 0-9 fail. -/
def decServerResponse (b : List Nat) : Option (ServerResponse × List Nat) :=
  obind (decUleb b) fun (i, b) =>
  match i with
  | 0 => some (.unit, b)
  | 1 => some (.pong, b)
  | 2 => obind (decSeq decConnectedClient b) fun (v, b) => some (.clientList v, b)
  | 3 => obind (decSeq decStoreInfo b) fun (v, b) => some (.storeList v, b)
  | 4 => obind (decServerInfo b) fun (v, b) => some (.infoServer v, b)
  | 5 => obind (decStoreUpsert b) fun (v, b) => some (.set v, b)
  | 6 => obind (decSeq (decPair decArray decMap) b) fun (v, b) => some (.get v, b)
  | 7 => obind (decSeq (decPair decArray (decPair decMap decSimilarity)) b)
           fun (v, b) => some (.getSimN v, b)
  | 8 => obind (decFixed 8 b) fun (v, b) => some (.del v, b)
  | 9 => obind (decFixed 8 b) fun (v, b) => some (.createIndex v, b)
  | _ => none

/-- Modelled from the spec: bincode decoding of the `Result` union (missing
`internals/bincode` runtime). -/
def decResult (b : List Nat) : Option (Result × List Nat) :=
  obind (decUleb b) fun (i, b) =>
  match i with
  | 0 => obind (decServerResponse b) fun (v, b) => some (.ok v, b)
  | 1 => obind (decStr b) fun (s, b) => some (.err s, b)
  | _ => none

/-- Modelled from the spec: bincode decoding of the `ServerResult` envelope
prefix (missing `internals/bincode` runtime). -/
def decServerResult (b : List Nat) : Option (ServerResult × List Nat) :=
  obind (decSeq decResult b) fun (rs, b) =>
  some (⟨rs⟩, b)

/-- The generated `ServerResult.bincode_deserialize` wrapper of
db_response.py: decode the envelope and fail when any input bytes were not
read. -/
def ServerResult.bincode_deserialize (input : List Nat) : Option ServerResult :=
  match decServerResult input with
  | some (v, []) => some v
  | _ => none

/-! ## Well-formedness

A value is well formed when every fixed-width numeric field fits its
declared width and every byte of a string/byte-sequence field is a byte —
exactly the values constructible through the generated Python classes,
whose `st.uintN` / `st.float32` fields carry those widths. -/

/-- `n` fits in `w` little-endian bytes. -/
def fitsB (w n : Nat) : Bool := decide (n < 256 ^ w)

/-- Every element of a modelled string is a byte. -/
def strWf (s : List Nat) : Bool := s.all (fitsB 1)

/-- Well-formed `Array`: u8 `v`, u64 `dim`, f32 bit patterns. -/
def Array.wf (a : Array) : Bool :=
  fitsB 1 a.v && fitsB 8 a.dim && a.data.all (fitsB 4)

/-- Well-formed `MetadataValue`. -/
def MetadataValue.wf : MetadataValue → Bool
  | .rawString s => strWf s
  | .image bs => bs.all (fitsB 1)

/-- Well-formed metadata map: well-formed keys and values. -/
def mapWf (m : MetaMap) : Bool := m.all fun e => strWf e.1 && e.2.wf

/-- Well-formed `Predicate`. -/
def Predicate.wf : Predicate → Bool
  | .equals k v => strWf k && v.wf
  | .notEquals k v => strWf k && v.wf
  | .isIn k vs => strWf k && vs.all MetadataValue.wf
  | .notIn k vs => strWf k && vs.all MetadataValue.wf

/-- Well-formed `PredicateCondition`. -/
def PredicateCondition.wf : PredicateCondition → Bool
  | .value p => p.wf
  | .and l r => l.wf && r.wf
  | .or l r => l.wf && r.wf

/-- Well-formed `Query`. -/
def Query.wf : Query → Bool
  | .createStore store dimension cps _ _ =>
      strWf store && fitsB 8 dimension && cps.all strWf
  | .getKey store keys => strWf store && keys.all Array.wf
  | .getPred store c => strWf store && c.wf
  | .getSimN store si cn _ c =>
      strWf store && si.wf && fitsB 8 cn &&
      (match c with | none => true | some pc => pc.wf)
  | .createPredIndex store ps => strWf store && ps.all strWf
  | .createNonLinearAlgorithmIndex store _ => strWf store
  | .dropPredIndex store ps _ => strWf store && ps.all strWf
  | .dropNonLinearAlgorithmIndex store _ _ => strWf store
  | .set store inputs =>
      strWf store && inputs.all fun p => p.1.wf && mapWf p.2
  | .delKey store keys => strWf store && keys.all Array.wf
  | .delPred store c => strWf store && c.wf
  | .dropStore store _ => strWf store
  | .infoServer => true
  | .listStores => true
  | .listClients => true
  | .ping => true

/-- Well-formed `ServerQuery`. -/
def ServerQuery.wf (sq : ServerQuery) : Bool :=
  sq.queries.all Query.wf &&
  (match sq.trace_id with | none => true | some s => strWf s)

/-- Well-formed `SystemTime`. -/
def SystemTime.wf (t : SystemTime) : Bool :=
  fitsB 8 t.secs_since_epoch && fitsB 4 t.nanos_since_epoch

/-- Well-formed `ConnectedClient`. -/
def ConnectedClient.wf (c : ConnectedClient) : Bool :=
  strWf c.address && c.time_connected.wf

/-- Well-formed `Version`. -/
def Version.wf (v : Version) : Bool :=
  fitsB 1 v.major && fitsB 2 v.minor && fitsB 2 v.patch

/-- Well-formed `ServerInfo`. -/
def ServerInfo.wf (s : ServerInfo) : Bool :=
  strWf s.address && s.version.wf && fitsB 8 s.limit && fitsB 8 s.remaining

/-- Well-formed `StoreInfo`. -/
def StoreInfo.wf (s : StoreInfo) : Bool :=
  strWf s.name && fitsB 8 s.len && fitsB 8 s.size_in_bytes

/-- Well-formed `StoreUpsert`. -/
def StoreUpsert.wf (s : StoreUpsert) : Bool :=
  fitsB 8 s.inserted && fitsB 8 s.updated

/-- Well-formed `Similarity`. -/
def Similarity.wf (s : Similarity) : Bool := fitsB 4 s.value

/-- Well-formed `ServerResponse`. -/
def ServerResponse.wf : ServerResponse → Bool
  | .unit => true
  | .pong => true
  | .clientList v => v.all ConnectedClient.wf
  | .storeList v => v.all StoreInfo.wf
  | .infoServer v => v.wf
  | .set v => v.wf
  | .get v => v.all fun p => p.1.wf && mapWf p.2
  | .getSimN v => v.all fun p => p.1.wf && mapWf p.2.1 && p.2.2.wf
  | .del v => fitsB 8 v
  | .createIndex v => fitsB 8 v

/-- Well-formed `Result`. -/
def Result.wf : Result → Bool
  | .ok v => v.wf
  | .err s => strWf s

/-- Well-formed `ServerResult`. -/
def ServerResult.wf (r : ServerResult) : Bool := r.results.all Result.wf

/-! ## Round-trip lemmas, query side

Each lemma states that decoding an encoding (with arbitrary trailing bytes)
returns the original value and consumes exactly the encoded bytes. -/

theorem fitsB_lt {w n : Nat} (h : fitsB w n = true) : n < 256 ^ w := by
  simpa [fitsB] using h

theorem andE {a b : Bool} (h : (a && b) = true) : a = true ∧ b = true := by
  simp only [Bool.and_eq_true] at h
  exact h

theorem decAlgorithm_enc (a : Algorithm) (rest : List Nat) :
    decAlgorithm (encAlgorithm a ++ rest) = some (a, rest) := by
  cases a <;> simp [encAlgorithm, decAlgorithm, decUleb_enc, obind_some]

theorem decNonLinear_enc (a : NonLinearAlgorithm) (rest : List Nat) :
    decNonLinear (encNonLinear a ++ rest) = some (a, rest) := by
  cases a
  simp [encNonLinear, decNonLinear, decUleb_enc, obind_some]

theorem decArray_enc (a : Array) (h : a.wf = true) (rest : List Nat) :
    decArray (encArray a ++ rest) = some (a, rest) := by
  have h' := h
  simp only [Array.wf] at h'
  obtain ⟨h12, h3⟩ := andE h'
  obtain ⟨h1, h2⟩ := andE h12
  have hdata : ∀ x ∈ a.data, fitsB 4 x = true := List.all_eq_true.mp h3
  have hseq : ∀ r, decSeq (decFixed 4) (encSeq (leBytes 4) a.data ++ r) =
      some (a.data, r) :=
    fun r => decSeq_enc _ _ _ r
      (fun x hx rr => decFixed_enc 4 x (fitsB_lt (hdata x hx)) rr)
  simp [encArray, decArray, List.append_assoc, obind_some,
    decFixed_enc 1 a.v (fitsB_lt h1), decFixed_enc 8 a.dim (fitsB_lt h2), hseq]

theorem decMeta_enc (m : MetadataValue) (h : m.wf = true) (rest : List Nat) :
    decMeta (encMeta m ++ rest) = some (m, rest) := by
  cases m with
  | rawString s =>
    simp [encMeta, decMeta, List.append_assoc, decUleb_enc, decStr_enc, obind_some]
  | image bs =>
    have hb : ∀ x ∈ bs, fitsB 1 x = true := by
      have h' := h
      simp only [MetadataValue.wf] at h'
      exact List.all_eq_true.mp h'
    have hseq : ∀ r, decSeq (decFixed 1) (encSeq (leBytes 1) bs ++ r) = some (bs, r) :=
      fun r => decSeq_enc _ _ _ r (fun x hx rr => decFixed_enc 1 x (fitsB_lt (hb x hx)) rr)
    simp [encMeta, decMeta, List.append_assoc, decUleb_enc, obind_some, hseq]

theorem decEntry_enc (e : List Nat × MetadataValue) (h : e.2.wf = true)
    (rest : List Nat) : decEntry (encEntry e ++ rest) = some (e, rest) :=
  decPair_enc _ _ _ _ e rest (fun r => decStr_enc e.1 r)
    (fun r => decMeta_enc e.2 h r)

theorem decMap_enc (m : MetaMap) (h : mapWf m = true) (rest : List Nat) :
    decMap (encMap m ++ rest) = some (m, rest) := by
  have hall : ∀ e ∈ m, (strWf e.1 && e.2.wf) = true := by
    have h' := h
    simp only [mapWf] at h'
    exact List.all_eq_true.mp h'
  exact decSeq_enc _ _ _ rest
    (fun e hm r => decEntry_enc e (andE (hall e hm)).2 r)

theorem decPredicate_enc (p : Predicate) (h : p.wf = true) (rest : List Nat) :
    decPredicate (encPredicate p ++ rest) = some (p, rest) := by
  cases p with
  | equals k v =>
    have h' := h
    simp only [Predicate.wf] at h'
    have hv : v.wf = true := (andE h').2
    simp [encPredicate, decPredicate, List.append_assoc, decUleb_enc, decStr_enc,
      obind_some, decMeta_enc v hv]
  | notEquals k v =>
    have h' := h
    simp only [Predicate.wf] at h'
    have hv : v.wf = true := (andE h').2
    simp [encPredicate, decPredicate, List.append_assoc, decUleb_enc, decStr_enc,
      obind_some, decMeta_enc v hv]
  | isIn k vs =>
    have h' := h
    simp only [Predicate.wf] at h'
    have hv : ∀ x ∈ vs, MetadataValue.wf x = true := List.all_eq_true.mp (andE h').2
    have hseq : ∀ r, decSeq decMeta (encSeq encMeta vs ++ r) = some (vs, r) :=
      fun r => decSeq_enc _ _ _ r (fun x hx rr => decMeta_enc x (hv x hx) rr)
    simp [encPredicate, decPredicate, List.append_assoc, decUleb_enc, decStr_enc,
      obind_some, hseq]
  | notIn k vs =>
    have h' := h
    simp only [Predicate.wf] at h'
    have hv : ∀ x ∈ vs, MetadataValue.wf x = true := List.all_eq_true.mp (andE h').2
    have hseq : ∀ r, decSeq decMeta (encSeq encMeta vs ++ r) = some (vs, r) :=
      fun r => decSeq_enc _ _ _ r (fun x hx rr => decMeta_enc x (hv x hx) rr)
    simp [encPredicate, decPredicate, List.append_assoc, decUleb_enc, decStr_enc,
      obind_some, hseq]

/-- Nesting depth of a condition; the fuel the fueled decoder needs. -/
def pcDepth : PredicateCondition → Nat
  | .value _ => 1
  | .and l r => 1 + max (pcDepth l) (pcDepth r)
  | .or l r => 1 + max (pcDepth l) (pcDepth r)

theorem encUleb_length_pos (n : Nat) : 0 < (encUleb n).length := by
  rw [encUleb, encUlebGo]
  split
  · simp
  · simp

theorem pcDepth_le_enc (pc : PredicateCondition) : pcDepth pc ≤ (encPC pc).length := by
  induction pc with
  | value p =>
    have := encUleb_length_pos 0
    simp only [pcDepth, encPC, List.length_append]
    omega
  | and l r ihl ihr =>
    have := encUleb_length_pos 1
    simp only [pcDepth, encPC, List.length_append]
    omega
  | or l r ihl ihr =>
    have := encUleb_length_pos 2
    simp only [pcDepth, encPC, List.length_append]
    omega

theorem decPCF_enc (pc : PredicateCondition) (h : pc.wf = true) :
    ∀ fuel rest, pcDepth pc ≤ fuel →
      decPCF fuel (encPC pc ++ rest) = some (pc, rest) := by
  induction pc with
  | value p =>
    intro fuel rest hf
    cases fuel with
    | zero => simp [pcDepth] at hf
    | succ f =>
      have hp : p.wf = true := by simpa [PredicateCondition.wf] using h
      simp [decPCF, encPC, List.append_assoc, decUleb_enc, obind_some,
        decPredicate_enc p hp]
  | and l r ihl ihr =>
    intro fuel rest hf
    cases fuel with
    | zero => simp [pcDepth] at hf
    | succ f =>
      have hw : l.wf = true ∧ r.wf = true := by
        simpa [PredicateCondition.wf, Bool.and_eq_true] using h
      have hd : pcDepth l ≤ f ∧ pcDepth r ≤ f := by
        simp only [pcDepth] at hf; omega
      have hl := ihl hw.1 f (encPC r ++ rest) hd.1
      have hr := ihr hw.2 f rest hd.2
      simp [decPCF, encPC, List.append_assoc, decUleb_enc, obind_some, hl, hr]
  | or l r ihl ihr =>
    intro fuel rest hf
    cases fuel with
    | zero => simp [pcDepth] at hf
    | succ f =>
      have hw : l.wf = true ∧ r.wf = true := by
        simpa [PredicateCondition.wf, Bool.and_eq_true] using h
      have hd : pcDepth l ≤ f ∧ pcDepth r ≤ f := by
        simp only [pcDepth] at hf; omega
      have hl := ihl hw.1 f (encPC r ++ rest) hd.1
      have hr := ihr hw.2 f rest hd.2
      simp [decPCF, encPC, List.append_assoc, decUleb_enc, obind_some, hl, hr]

theorem decPC_enc (pc : PredicateCondition) (h : pc.wf = true) (rest : List Nat) :
    decPC (encPC pc ++ rest) = some (pc, rest) := by
  apply decPCF_enc pc h
  have := pcDepth_le_enc pc
  simp only [List.length_append]
  omega

theorem decSeqStr_enc (xs : List (List Nat)) (rest : List Nat) :
    decSeq decStr (encSeq encStr xs ++ rest) = some (xs, rest) :=
  decSeq_enc _ _ _ rest (fun x _ r => decStr_enc x r)

theorem decSeqNonLinear_enc (xs : List NonLinearAlgorithm) (rest : List Nat) :
    decSeq decNonLinear (encSeq encNonLinear xs ++ rest) = some (xs, rest) :=
  decSeq_enc _ _ _ rest (fun x _ r => decNonLinear_enc x r)

theorem decSeqArray_enc (xs : List Array) (h : ∀ x ∈ xs, Array.wf x = true)
    (rest : List Nat) :
    decSeq decArray (encSeq encArray xs ++ rest) = some (xs, rest) :=
  decSeq_enc _ _ _ rest (fun x hx r => decArray_enc x (h x hx) r)

theorem decOptPC_enc (c : Option PredicateCondition)
    (h : ∀ pc, c = some pc → pc.wf = true) (rest : List Nat) :
    decOpt decPC (encOpt encPC c ++ rest) = some (c, rest) :=
  decOpt_enc _ _ _ rest (fun pc hc r => decPC_enc pc (h pc hc) r)

theorem decSeqInput_enc (xs : List (Array × MetaMap))
    (h : ∀ p ∈ xs, (p.1.wf && mapWf p.2) = true) (rest : List Nat) :
    decSeq (decPair decArray decMap)
      (encSeq (encPair encArray encMap) xs ++ rest) = some (xs, rest) :=
  decSeq_enc _ _ _ rest fun p hp r =>
    decPair_enc _ _ _ _ p r
      (fun rr => decArray_enc p.1 (andE (h p hp)).1 rr)
      (fun rr => decMap_enc p.2 (andE (h p hp)).2 rr)

theorem decQuery_enc (q : Query) (h : q.wf = true) (rest : List Nat) :
    decQuery (encQuery q ++ rest) = some (q, rest) := by
  cases q with
  | createStore store dimension cps nli eie =>
    have h' := h
    simp only [Query.wf] at h'
    obtain ⟨hsd, hcps⟩ := andE h'
    obtain ⟨hs, hd⟩ := andE hsd
    simp [encQuery, decQuery, List.append_assoc, decUleb_enc, obind_some,
      decStr_enc, decFixed_enc 8 dimension (fitsB_lt hd), decSeqStr_enc,
      decSeqNonLinear_enc, decBool_enc]
  | getKey store keys =>
    have h' := h
    simp only [Query.wf] at h'
    have hk : ∀ x ∈ keys, Array.wf x = true := List.all_eq_true.mp (andE h').2
    simp [encQuery, decQuery, List.append_assoc, decUleb_enc, obind_some,
      decStr_enc, fun r => decSeqArray_enc keys hk r]
  | getPred store c =>
    have h' := h
    simp only [Query.wf] at h'
    have hc : c.wf = true := (andE h').2
    simp [encQuery, decQuery, List.append_assoc, decUleb_enc, obind_some,
      decStr_enc, fun r => decPC_enc c hc r]
  | getSimN store si cn alg c =>
    have h' := h
    simp only [Query.wf] at h'
    obtain ⟨h3, hc⟩ := andE h'
    obtain ⟨h2, hn⟩ := andE h3
    obtain ⟨hs, hsi⟩ := andE h2
    have hcw : ∀ pc, c = some pc → pc.wf = true := by
      intro pc hpc
      cases c with
      | none => cases hpc
      | some x => cases hpc; simpa using hc
    simp [encQuery, decQuery, List.append_assoc, decUleb_enc, obind_some,
      decStr_enc, decArray_enc si hsi, decFixed_enc 8 cn (fitsB_lt hn),
      decAlgorithm_enc, fun r => decOptPC_enc c hcw r]
  | createPredIndex store ps =>
    simp [encQuery, decQuery, List.append_assoc, decUleb_enc, obind_some,
      decStr_enc, decSeqStr_enc]
  | createNonLinearAlgorithmIndex store nli =>
    simp [encQuery, decQuery, List.append_assoc, decUleb_enc, obind_some,
      decStr_enc, decSeqNonLinear_enc]
  | dropPredIndex store ps eine =>
    simp [encQuery, decQuery, List.append_assoc, decUleb_enc, obind_some,
      decStr_enc, decSeqStr_enc, decBool_enc]
  | dropNonLinearAlgorithmIndex store nli eine =>
    simp [encQuery, decQuery, List.append_assoc, decUleb_enc, obind_some,
      decStr_enc, decSeqNonLinear_enc, decBool_enc]
  | set store inputs =>
    have h' := h
    simp only [Query.wf] at h'
    have hi : ∀ p ∈ inputs, ((p : Array × MetaMap).1.wf && mapWf p.2) = true :=
      List.all_eq_true.mp (andE h').2
    simp [encQuery, decQuery, List.append_assoc, decUleb_enc, obind_some,
      decStr_enc, fun r => decSeqInput_enc inputs hi r]
  | delKey store keys =>
    have h' := h
    simp only [Query.wf] at h'
    have hk : ∀ x ∈ keys, Array.wf x = true := List.all_eq_true.mp (andE h').2
    simp [encQuery, decQuery, List.append_assoc, decUleb_enc, obind_some,
      decStr_enc, fun r => decSeqArray_enc keys hk r]
  | delPred store c =>
    have h' := h
    simp only [Query.wf] at h'
    have hc : c.wf = true := (andE h').2
    simp [encQuery, decQuery, List.append_assoc, decUleb_enc, obind_some,
      decStr_enc, fun r => decPC_enc c hc r]
  | dropStore store eine =>
    simp [encQuery, decQuery, List.append_assoc, decUleb_enc, obind_some,
      decStr_enc, decBool_enc]
  | infoServer => simp [encQuery, decQuery, decUleb_enc, obind_some]
  | listStores => simp [encQuery, decQuery, decUleb_enc, obind_some]
  | listClients => simp [encQuery, decQuery, decUleb_enc, obind_some]
  | ping => simp [encQuery, decQuery, decUleb_enc, obind_some]

theorem decServerQuery_enc (sq : ServerQuery) (h : sq.wf = true) (rest : List Nat) :
    decServerQuery (ServerQuery.bincode_serialize sq ++ rest) = some (sq, rest) := by
  have h' := h
  simp only [ServerQuery.wf] at h'
  obtain ⟨hq, ht⟩ := andE h'
  have hqs : ∀ q ∈ sq.queries, Query.wf q = true := List.all_eq_true.mp hq
  have hseq : ∀ r, decSeq decQuery (encSeq encQuery sq.queries ++ r) =
      some (sq.queries, r) :=
    fun r => decSeq_enc _ _ _ r (fun q hqm rr => decQuery_enc q (hqs q hqm) rr)
  have hopt : ∀ r, decOpt decStr (encOpt encStr sq.trace_id ++ r) =
      some (sq.trace_id, r) :=
    fun r => decOpt_enc _ _ _ r (fun s _ rr => decStr_enc s rr)
  simp [ServerQuery.bincode_serialize, decServerQuery, List.append_assoc,
    obind_some, hseq, hopt]

theorem serverQuery_roundtrip (sq : ServerQuery) (h : sq.wf = true) :
    ServerQuery.bincode_deserialize (ServerQuery.bincode_serialize sq) = some sq := by
  have h2 := decServerQuery_enc sq h []
  rw [List.append_nil] at h2
  simp [ServerQuery.bincode_deserialize, h2]

/-! ## Round-trip lemmas, response side -/

theorem decSystemTime_enc (t : SystemTime) (h : t.wf = true) (rest : List Nat) :
    decSystemTime (encSystemTime t ++ rest) = some (t, rest) := by
  have h' := h
  simp only [SystemTime.wf] at h'
  obtain ⟨h1, h2⟩ := andE h'
  simp [encSystemTime, decSystemTime, List.append_assoc, obind_some,
    decFixed_enc 8 _ (fitsB_lt h1), decFixed_enc 4 _ (fitsB_lt h2)]

theorem decConnectedClient_enc (c : ConnectedClient) (h : c.wf = true)
    (rest : List Nat) :
    decConnectedClient (encConnectedClient c ++ rest) = some (c, rest) := by
  have h' := h
  simp only [ConnectedClient.wf] at h'
  have ht := (andE h').2
  simp [encConnectedClient, decConnectedClient, List.append_assoc, obind_some,
    decStr_enc, decSystemTime_enc c.time_connected ht]

theorem decVersion_enc (v : Version) (h : v.wf = true) (rest : List Nat) :
    decVersion (Version.bincode_serialize v ++ rest) = some (v, rest) := by
  have h' := h
  simp only [Version.wf] at h'
  obtain ⟨h12, h3⟩ := andE h'
  obtain ⟨h1, h2⟩ := andE h12
  simp [Version.bincode_serialize, decVersion, List.append_assoc, obind_some,
    decFixed_enc 1 _ (fitsB_lt h1), decFixed_enc 2 _ (fitsB_lt h2),
    decFixed_enc 2 _ (fitsB_lt h3)]

theorem decServerType_enc (t : ServerType) (rest : List Nat) :
    decServerType (encServerType t ++ rest) = some (t, rest) := by
  cases t <;> simp [encServerType, decServerType, decUleb_enc, obind_some]

theorem decServerInfo_enc (s : ServerInfo) (h : s.wf = true) (rest : List Nat) :
    decServerInfo (encServerInfo s ++ rest) = some (s, rest) := by
  have h' := h
  simp only [ServerInfo.wf] at h'
  obtain ⟨h123, h4⟩ := andE h'
  obtain ⟨h12, h3⟩ := andE h123
  obtain ⟨h1, h2⟩ := andE h12
  simp [encServerInfo, decServerInfo, List.append_assoc, obind_some, decStr_enc,
    decVersion_enc s.version h2, decServerType_enc,
    decFixed_enc 8 _ (fitsB_lt h3), decFixed_enc 8 _ (fitsB_lt h4)]

theorem decStoreInfo_enc (s : StoreInfo) (h : s.wf = true) (rest : List Nat) :
    decStoreInfo (encStoreInfo s ++ rest) = some (s, rest) := by
  have h' := h
  simp only [StoreInfo.wf] at h'
  obtain ⟨h12, h3⟩ := andE h'
  obtain ⟨h1, h2⟩ := andE h12
  simp [encStoreInfo, decStoreInfo, List.append_assoc, obind_some, decStr_enc,
    decFixed_enc 8 _ (fitsB_lt h2), decFixed_enc 8 _ (fitsB_lt h3)]

theorem decStoreUpsert_enc (s : StoreUpsert) (h : s.wf = true) (rest : List Nat) :
    decStoreUpsert (encStoreUpsert s ++ rest) = some (s, rest) := by
  have h' := h
  simp only [StoreUpsert.wf] at h'
  obtain ⟨h1, h2⟩ := andE h'
  simp [encStoreUpsert, decStoreUpsert, List.append_assoc, obind_some,
    decFixed_enc 8 _ (fitsB_lt h1), decFixed_enc 8 _ (fitsB_lt h2)]

theorem decSimilarity_enc (s : Similarity) (h : s.wf = true) (rest : List Nat) :
    decSimilarity (encSimilarity s ++ rest) = some (s, rest) := by
  have h' := h
  simp only [Similarity.wf] at h'
  simp [encSimilarity, decSimilarity, List.append_assoc, obind_some,
    decFixed_enc 4 _ (fitsB_lt h')]

theorem decServerResponse_enc (s : ServerResponse) (h : s.wf = true)
    (rest : List Nat) :
    decServerResponse (encServerResponse s ++ rest) = some (s, rest) := by
  cases s with
  | unit => simp [encServerResponse, decServerResponse, decUleb_enc, obind_some]
  | pong => simp [encServerResponse, decServerResponse, decUleb_enc, obind_some]
  | clientList v =>
    have h' := h
    simp only [ServerResponse.wf] at h'
    have hv : ∀ x ∈ v, ConnectedClient.wf x = true := List.all_eq_true.mp h'
    have hseq : ∀ r, decSeq decConnectedClient
        (encSeq encConnectedClient v ++ r) = some (v, r) :=
      fun r => decSeq_enc _ _ _ r (fun x hx rr => decConnectedClient_enc x (hv x hx) rr)
    simp [encServerResponse, decServerResponse, List.append_assoc, decUleb_enc,
      obind_some, hseq]
  | storeList v =>
    have h' := h
    simp only [ServerResponse.wf] at h'
    have hv : ∀ x ∈ v, StoreInfo.wf x = true := List.all_eq_true.mp h'
    have hseq : ∀ r, decSeq decStoreInfo (encSeq encStoreInfo v ++ r) =
        some (v, r) :=
      fun r => decSeq_enc _ _ _ r (fun x hx rr => decStoreInfo_enc x (hv x hx) rr)
    simp [encServerResponse, decServerResponse, List.append_assoc, decUleb_enc,
      obind_some, hseq]
  | infoServer v =>
    have h' := h
    simp only [ServerResponse.wf] at h'
    simp [encServerResponse, decServerResponse, List.append_assoc, decUleb_enc,
      obind_some, decServerInfo_enc v h']
  | set v =>
    have h' := h
    simp only [ServerResponse.wf] at h'
    simp [encServerResponse, decServerResponse, List.append_assoc, decUleb_enc,
      obind_some, decStoreUpsert_enc v h']
  | get v =>
    have h' := h
    simp only [ServerResponse.wf] at h'
    have hv : ∀ p ∈ v, ((p : Array × MetaMap).1.wf && mapWf p.2) = true :=
      List.all_eq_true.mp h'
    simp [encServerResponse, decServerResponse, List.append_assoc, decUleb_enc,
      obind_some, fun r => decSeqInput_enc v hv r]
  | getSimN v =>
    have h' := h
    simp only [ServerResponse.wf] at h'
    have hv : ∀ p ∈ v, ((p : Array × (MetaMap × Similarity)).1.wf &&
        mapWf p.2.1 && p.2.2.wf) = true := List.all_eq_true.mp h'
    have hseq : ∀ r, decSeq (decPair decArray (decPair decMap decSimilarity))
        (encSeq (encPair encArray (encPair encMap encSimilarity)) v ++ r) =
        some (v, r) := by
      intro r
      apply decSeq_enc
      intro p hp rr
      have h1 := (andE (andE (hv p hp)).1).1
      have h2 := (andE (andE (hv p hp)).1).2
      have h3 := (andE (hv p hp)).2
      exact decPair_enc _ _ _ _ p rr
        (fun r2 => decArray_enc p.1 h1 r2)
        (fun r2 => decPair_enc _ _ _ _ p.2 r2
          (fun r3 => decMap_enc p.2.1 h2 r3)
          (fun r3 => decSimilarity_enc p.2.2 h3 r3))
    simp [encServerResponse, decServerResponse, List.append_assoc, decUleb_enc,
      obind_some, hseq]
  | del v =>
    have h' := h
    simp only [ServerResponse.wf] at h'
    simp [encServerResponse, decServerResponse, List.append_assoc, decUleb_enc,
      obind_some, decFixed_enc 8 _ (fitsB_lt h')]
  | createIndex v =>
    have h' := h
    simp only [ServerResponse.wf] at h'
    simp [encServerResponse, decServerResponse, List.append_assoc, decUleb_enc,
      obind_some, decFixed_enc 8 _ (fitsB_lt h')]

theorem decResult_enc (x : Result) (h : x.wf = true) (rest : List Nat) :
    decResult (encResult x ++ rest) = some (x, rest) := by
  cases x with
  | ok v =>
    have h' := h
    simp only [Result.wf] at h'
    simp [encResult, decResult, List.append_assoc, decUleb_enc, obind_some,
      decServerResponse_enc v h']
  | err s =>
    simp [encResult, decResult, List.append_assoc, decUleb_enc, obind_some,
      decStr_enc]

theorem decServerResult_enc (r : ServerResult) (h : r.wf = true)
    (rest : List Nat) :
    decServerResult (ServerResult.bincode_serialize r ++ rest) = some (r, rest) := by
  have h' := h
  simp only [ServerResult.wf] at h'
  have hr : ∀ x ∈ r.results, Result.wf x = true := List.all_eq_true.mp h'
  have hseq : ∀ rr, decSeq decResult (encSeq encResult r.results ++ rr) =
      some (r.results, rr) :=
    fun rr => decSeq_enc _ _ _ rr (fun x hx r2 => decResult_enc x (hr x hx) r2)
  simp [ServerResult.bincode_serialize, decServerResult, obind_some, hseq]

theorem serverResult_roundtrip (r : ServerResult) (h : r.wf = true) :
    ServerResult.bincode_deserialize (ServerResult.bincode_serialize r) = some r := by
  have h2 := decServerResult_enc r h []
  rw [List.append_nil] at h2
  simp [ServerResult.bincode_deserialize, h2]

/-! ## Message framing and the socket read loop -/

/-- The fixed magic token `HEADER = b"AHNLICH;"` of config.py (line 5). -/
def HEADER : List Nat := [65, 72, 78, 76, 73, 67, 72, 59]

/-- Embeds `AhnlichMessageProtocol.serialize_query` (internals/protocol.py
lines 51-57): magic header, bincode-encoded protocol version, the payload
byte length as `len(response).to_bytes(8, "little")`, then the encoded
query payload. -/
def serialize_query (version : Version) (server_query : ServerQuery) : List Nat :=
  let v := Version.bincode_serialize version
  let response := ServerQuery.bincode_serialize server_query
  let response_length := leBytes 8 response.length
  HEADER ++ v ++ response_length ++ response

/-- The spec's framer (§4.2) over an arbitrary payload; `serialize_query`
is this framer applied to the encoded query batch. -/
def frame (version : Version) (payload : List Nat) : List Nat :=
  HEADER ++ Version.bincode_serialize version ++ leBytes 8 payload.length ++ payload

theorem serialize_query_eq_frame (version : Version) (sq : ServerQuery) :
    serialize_query version sq = frame version (ServerQuery.bincode_serialize sq) :=
  rfl

/-- Embeds the `while size_to_read > 0` loop of `BufReader.recv`
(internals/protocol.py lines 35-43).  `stream` is the byte sequence the
peer will still deliver before closing: `conn.recv(size)` returns its first
`size` bytes (or all of it when shorter, or zero bytes once it is empty —
the closed-peer case).  `sizeToRead` and `size` mirror the Python locals.
The `fuel` argument only bounds the number of loop iterations; a result of
`none` for every fuel value means the loop never terminates. -/
def bufRecvF (fuel : Nat) (stream : List Nat) (sizeToRead size : Nat) :
    Option (List Nat × List Nat) :=
  if sizeToRead = 0 then some ([], stream)
  else
    match fuel with
    | 0 => none
    | f + 1 =>
      let data := stream.take size
      match bufRecvF f (stream.drop size) (sizeToRead - data.length)
          (min (sizeToRead - data.length) size) with
      | some (buf, rem) => some (data ++ buf, rem)
      | none => none

/-- `BufReader.recv(size_to_read)` with the default `max_size_to_read=1024`
chunk cap, supplied with enough fuel for any read that terminates at all
(each productive iteration consumes at least one requested byte). -/
def bufRecv (stream : List Nat) (sizeToRead : Nat) : Option (List Nat × List Nat) :=
  bufRecvF (sizeToRead + 1) stream sizeToRead (min sizeToRead 1024)

theorem bufRecvF_complete (fuel : Nat) :
    ∀ n size stream, n ≤ (stream : List Nat).length → size ≤ n →
      (0 < n → 0 < size) → n < fuel →
      bufRecvF fuel stream n size = some (stream.take n, stream.drop n) := by
  induction fuel with
  | zero => intro n size stream _ _ _ h4; omega
  | succ f ih =>
    intro n size stream h1 h2 h3 h4
    by_cases hn : n = 0
    · subst hn; simp [bufRecvF]
    · have hsize : 0 < size := h3 (by omega)
      have hlen : (stream.take size).length = size := by
        simp only [List.length_take]; omega
      have hrec := ih (n - size) (min (n - size) size) (stream.drop size)
        (by simp only [List.length_drop]; omega) (by omega) (by omega) (by omega)
      have htake : stream.take size ++ (stream.drop size).take (n - size) =
          stream.take n := by
        rw [← List.take_add]
        congr 1
        omega
      have hdrop : (stream.drop size).drop (n - size) = stream.drop n := by
        rw [List.drop_drop]
        congr 1
        omega
      rw [bufRecvF]
      simp only [if_neg hn, hlen, hrec, htake, hdrop]

theorem bufRecv_complete (stream : List Nat) (n : Nat) (h : n ≤ stream.length) :
    bufRecv stream n = some (stream.take n, stream.drop n) :=
  bufRecvF_complete (n + 1) n (min n 1024) stream h (by omega) (by omega) (by omega)

/-- On a stream the peer has closed (no bytes left, every `recv` returning
zero bytes) a pending read never completes, whatever the iteration bound:
the loop body never decreases `size_to_read`. -/
theorem bufRecvF_closed_none (fuel sizeToRead size : Nat) (h : sizeToRead ≠ 0) :
    bufRecvF fuel ([] : List Nat) sizeToRead size = none := by
  induction fuel generalizing size with
  | zero => rw [bufRecvF]; simp [h]
  | succ f ih => rw [bufRecvF]; simp [h, ih]

/-! ## Receive path and the exchange -/

/-- Outcome of one `receive` call: the read loop never returning
(`diverges`: no iteration bound suffices), a raised
`AhnlichProtocolException` (`protoError` with its message), a raised
`DeserializationError` (`deserError`), or a decoded value. -/
inductive RecvOutcome (α : Type)
  | diverges
  | protoError (msg : String)
  | deserError
  | ok (value : α)
deriving DecidableEq

/-- Embeds `AhnlichMessageProtocol.receive` (internals/protocol.py lines
85-108) up to the point where the payload bytes are handed to
`deserialize_server_response`: read 8 header bytes through `BufReader`,
raise on an empty or wrong magic token, read and discard 5 version bytes,
read the 8-byte little-endian payload length, then read that many payload
bytes. -/
def receivePayload (stream : List Nat) : RecvOutcome (List Nat) :=
  match bufRecv stream 8 with
  | none => .diverges
  | some (header, s1) =>
    if header = [] then .protoError "socket connection broken"
    else if header ≠ HEADER then .protoError "Fake server"
    else
      match bufRecv s1 5 with
      | none => .diverges
      | some (_, s2) =>
        match bufRecv s2 8 with
        | none => .diverges
        | some (lengthBytes, s3) =>
          match bufRecv s3 (fromLeBytes lengthBytes) with
          | none => .diverges
          | some (data, _) => .ok data

/-- Embeds the deserialization tail of `receive`: the assembled payload is
handed to `ServerResult.bincode_deserialize`; a decode failure models the
raised `DeserializationError`. -/
def receiveResult (stream : List Nat) : RecvOutcome ServerResult :=
  match receivePayload stream with
  | .diverges => .diverges
  | .protoError m => .protoError m
  | .deserError => .deserError
  | .ok data =>
    match ServerResult.bincode_deserialize data with
    | some r => .ok r
    | none => .deserError

/-- Embeds `BaseClient.process_request` (internals/base_client.py lines
72-80): inside one `with self.connected_socket` block, send the framed
query and read and decode the response from the same connection.  The
network is abstracted by `server`, the function from the bytes written on
the connection to the bytes the peer then delivers. -/
def process_request (server : List Nat → List Nat) (version : Version)
    (message : ServerQuery) : RecvOutcome ServerResult :=
  receiveResult (server (serialize_query version message))

/-! ## Connection events of one exchange (for the exclusivity claim) -/

/-- Connection-pool events one exchange can perform, tagged with the
identity of the pooled connection involved. -/
inductive ConnEvent
  | checkout (conn : Nat)
  | send (conn : Nat) (bytes : List Nat)
  | recv (conn : Nat)
  | release (conn : Nat)
deriving DecidableEq

/-- The `with self.connected_socket as conn:` context manager of
`process_request`: a checkout, the body run on that connection, then the
release on block exit. -/
def withConnection (conn : Nat) (body : Nat → List ConnEvent) : List ConnEvent :=
  ConnEvent.checkout conn :: (body conn ++ [ConnEvent.release conn])

/-- The connection events of one `process_request` call (internals/
base_client.py lines 75-79): the framed request bytes are written and the
response is read inside the one `with` block, on the connection it bound. -/
def processRequestEvents (conn : Nat) (version : Version)
    (message : ServerQuery) : List ConnEvent :=
  withConnection conn fun c =>
    [ConnEvent.send c (serialize_query version message), ConnEvent.recv c]

/-! ## Request builder and client facade -/

/-- Embeds `NonZeroSizeInteger` (client.py lines 6-11): constructing it
from a non-positive integer raises. -/
def NonZeroSizeInteger.make (num : Int) : Except String Int :=
  if num ≤ 0 then .error "Ahnlich expects a Non zero value as integers"
  else .ok num

/-- The mutable state of `AhnlichDBRequestBuilder` (builders/db.py): the
pending query list and the optional tracing id. -/
structure AhnlichDBRequestBuilder where
  queries : List Query
  tracing_id : Option (List Nat)
deriving DecidableEq

/-- Embeds `AhnlichDBRequestBuilder.get_key`: append one `GetKey` query to
the pending list. -/
def AhnlichDBRequestBuilder.get_key (b : AhnlichDBRequestBuilder)
    (store_name : List Nat) (keys : List Array) : AhnlichDBRequestBuilder :=
  { b with queries := b.queries ++ [Query.getKey store_name keys] }

/-- Embeds `AhnlichDBRequestBuilder.get_sim_n` (builders/db.py lines
48-65): `closest_n` is validated through `NonZeroSizeInteger` before the
append, so a non-positive value raises (`Except.error`, modelling the
exception) with the pending list untouched and nothing constructed, let
alone sent; otherwise the `GetSimN` query is appended. -/
def AhnlichDBRequestBuilder.get_sim_n (b : AhnlichDBRequestBuilder)
    (store_name : List Nat) (search_input : Array) (closest_n : Int)
    (algorithm : Algorithm) (condition : Option PredicateCondition) :
    Except String AhnlichDBRequestBuilder :=
  match NonZeroSizeInteger.make closest_n with
  | .error e => .error e
  | .ok n => .ok { b with queries := b.queries ++
      [Query.getSimN store_name search_input n.toNat algorithm condition] }

/-- Embeds `AhnlichDBRequestBuilder.drop`: clear the pending list. -/
def AhnlichDBRequestBuilder.drop (b : AhnlichDBRequestBuilder) :
    AhnlichDBRequestBuilder :=
  { b with queries := [] }

/-- Embeds `AhnlichDBRequestBuilder.to_server_query` (builders/db.py lines
148-159): raise when no request is pending; otherwise copy the pending
list into a `ServerQuery`, clear the builder (`self.drop()`), and return
the query.  The returned builder is the mutated `self`. -/
def AhnlichDBRequestBuilder.to_server_query (b : AhnlichDBRequestBuilder) :
    Except String (ServerQuery × AhnlichDBRequestBuilder) :=
  if b.queries.isEmpty then
    .error "Must have atleast one request to be processed"
  else
    .ok (⟨b.queries, b.tracing_id⟩, b.drop)

/-- Embeds `AhnlichDBRequestBuilder.exec` (builders/db.py lines 161-163):
build the server query (consuming the builder) and run it through
`process_request`. -/
def AhnlichDBRequestBuilder.exec (b : AhnlichDBRequestBuilder)
    (server : List Nat → List Nat) (version : Version) :
    Except String (RecvOutcome ServerResult × AhnlichDBRequestBuilder) :=
  match b.to_server_query with
  | .error e => .error e
  | .ok (sq, b') => .ok (process_request server version sq, b')

/-- Embeds `AhnlichDBClient.get_key` (clients/db.py lines 31-39): build a
fresh builder carrying the tracing id, append the one `GetKey` request,
convert to a `ServerQuery` and run one exchange, returning
`process_request`'s result unchanged. -/
def AhnlichDBClient.get_key (server : List Nat → List Nat) (version : Version)
    (store_name : List Nat) (keys : List Array)
    (tracing_id : Option (List Nat)) :
    Except String (RecvOutcome ServerResult) :=
  let builder : AhnlichDBRequestBuilder := ⟨[], tracing_id⟩
  let builder := builder.get_key store_name keys
  match builder.to_server_query with
  | .error e => .error e
  | .ok (sq, _) => .ok (process_request server version sq)

/-! ## Pool liveness check -/

/-- How the one-byte `MSG_PEEK` recv inside `check_aliveness`
(pool_wrapper.py) resolves: the kernel delivers the peeked data, raises
`BlockingIOError` with errno `EAGAIN`, raises `BlockingIOError` with some
other errno, or raises `OSError`. -/
inductive PeekBehavior
  | delivered
  | wouldBlockEagain
  | wouldBlockOther
  | osErr
deriving DecidableEq

/-- A TCP socket as `check_aliveness` sees it: its configured timeout
value (opaque, of type `T`) and the received-but-unread application
bytes. -/
structure Sock (T : Type) where
  timeout : T
  buffer : List Nat

/-- Return or raise of `check_aliveness`: `True`, `False`, or a re-raised
exception. -/
inductive AliveOutcome
  | alive
  | dead
  | raised
deriving DecidableEq

/-- Embeds `AhnlichTcpSocketConnectionManager.check_aliveness` together
with the `socket_nonblocking` context manager (pool_wrapper.py lines
13-46): the original timeout is saved by `gettimeout()`, the timeout is set
to a near-zero value on windows or zero elsewhere, `conn.recv(1,
MSG_PEEK)` peeks at the first buffered byte without consuming it (a peek,
so the buffer is unchanged), and the `finally` clause restores the saved
timeout before the `except` handlers classify the outcome: empty peek
means the peer closed (`False`), `EAGAIN` means alive (`True`), any other
`BlockingIOError` is re-raised, `OSError` means `False`. -/
def check_aliveness {T : Type} (isWindows : Bool) (tiny zero : T)
    (behavior : PeekBehavior) (s : Sock T) : Sock T × AliveOutcome :=
  let orig := s.timeout
  let sIn : Sock T := { s with timeout := if isWindows then tiny else zero }
  match behavior with
  | .delivered =>
    let peeked := sIn.buffer.take 1
    ({ sIn with timeout := orig },
     if peeked = [] then AliveOutcome.dead else AliveOutcome.alive)
  | .wouldBlockEagain => ({ sIn with timeout := orig }, AliveOutcome.alive)
  | .wouldBlockOther => ({ sIn with timeout := orig }, AliveOutcome.raised)
  | .osErr => ({ sIn with timeout := orig }, AliveOutcome.dead)

/-! ## Unframing a well-formed frame -/

theorem take_append_len {α : Type} (xs ys : List α) (n : Nat) (h : xs.length = n) :
    (xs ++ ys).take n = xs := by
  subst h; exact List.take_left xs ys

theorem drop_append_len {α : Type} (xs ys : List α) (n : Nat) (h : xs.length = n) :
    (xs ++ ys).drop n = ys := by
  subst h; exact List.drop_left xs ys

/-- A read of exactly the length of the stream's next segment returns that
segment and leaves the rest. -/
theorem bufRecv_exact (xs rest : List Nat) (n : Nat) (h : xs.length = n) :
    bufRecv (xs ++ rest) n = some (xs, rest) := by
  have hlen : n ≤ (xs ++ rest).length := by
    simp only [List.length_append]; omega
  rw [bufRecv_complete _ _ hlen, take_append_len xs rest n h,
    drop_append_len xs rest n h]

theorem version_serialize_length (v : Version) :
    (Version.bincode_serialize v).length = 5 := by
  simp [Version.bincode_serialize, leBytes_length]

/-- Unframing (the read side of `receive`) delivers exactly the framed
payload to the decoder. -/
theorem receivePayload_frame (version : Version) (p : List Nat)
    (h : p.length < 256 ^ 8) :
    receivePayload (frame version p) = .ok p := by
  have h1 : bufRecv (HEADER ++ (Version.bincode_serialize version ++
      (leBytes 8 p.length ++ p))) 8 =
      some (HEADER, Version.bincode_serialize version ++ (leBytes 8 p.length ++ p)) :=
    bufRecv_exact _ _ 8 rfl
  have h2 : bufRecv (Version.bincode_serialize version ++ (leBytes 8 p.length ++ p)) 5 =
      some (Version.bincode_serialize version, leBytes 8 p.length ++ p) :=
    bufRecv_exact _ _ 5 (version_serialize_length version)
  have h3 : bufRecv (leBytes 8 p.length ++ p) 8 = some (leBytes 8 p.length, p) :=
    bufRecv_exact _ _ 8 (leBytes_length 8 p.length)
  have h4 : bufRecv p p.length = some (p, []) := by
    have := bufRecv_exact p [] p.length rfl
    rwa [List.append_nil] at this
  have hne : HEADER ≠ [] := by decide
  simp [receivePayload, frame, List.append_assoc, h1, h2, h3, h4, hne,
    fromLeBytes_leBytes 8 p.length h]

/-- Unframing then decoding a frame that carries a well-formed encoded
response envelope yields that envelope. -/
theorem receiveResult_frame (version : Version) (r : ServerResult)
    (hr : r.wf = true)
    (hlen : (ServerResult.bincode_serialize r).length < 256 ^ 8) :
    receiveResult (frame version (ServerResult.bincode_serialize r)) = .ok r := by
  simp [receiveResult, receivePayload_frame version _ hlen,
    serverResult_roundtrip r hr]

/-! ## Claim theorems -/

/-- C1: for every server query batch, `serialize_query` produces exactly
the 8 fixed ASCII bytes of `"AHNLICH;"`, then the 5-byte version encoding
(major: 1 byte, minor: 2 bytes little-endian, patch: 2 bytes
little-endian), then the encoded payload's byte length as an 8-byte
little-endian unsigned integer, then the encoded payload verbatim, so the
total frame length is 21 plus the payload length. -/
theorem serialize_query_frame_layout (version : Version) (q : ServerQuery) :
    serialize_query version q =
      [65, 72, 78, 76, 73, 67, 72, 59] ++
      ([version.major % 256] ++ leBytes 2 version.minor ++ leBytes 2 version.patch) ++
      leBytes 8 (ServerQuery.bincode_serialize q).length ++
      ServerQuery.bincode_serialize q ∧
    (serialize_query version q).length =
      21 + (ServerQuery.bincode_serialize q).length := by
  constructor
  · rfl
  · simp only [serialize_query, List.length_append, leBytes_length,
      version_serialize_length, HEADER, List.length_cons, List.length_nil]

/-- C2: for every well-formed value of the registered envelope types
(`ServerQuery`, `ServerResult`), deserializing the serialization returns
the value; a decode of an encoding followed by extra bytes consumes exactly
the encoded bytes and leaves the extra ones; and every byte string produced
by the serializer decodes back to a value whose serialization reproduces
the bytes exactly. -/
theorem bincode_roundtrip :
    (∀ q : ServerQuery, q.wf = true →
        ServerQuery.bincode_deserialize (ServerQuery.bincode_serialize q) = some q) ∧
    (∀ r : ServerResult, r.wf = true →
        ServerResult.bincode_deserialize (ServerResult.bincode_serialize r) = some r) ∧
    (∀ q : ServerQuery, q.wf = true → ∀ extra : List Nat,
        decServerQuery (ServerQuery.bincode_serialize q ++ extra) = some (q, extra)) ∧
    (∀ r : ServerResult, r.wf = true → ∀ extra : List Nat,
        decServerResult (ServerResult.bincode_serialize r ++ extra) = some (r, extra)) ∧
    (∀ (b : List Nat) (q : ServerQuery), q.wf = true →
        b = ServerQuery.bincode_serialize q →
        ∃ v, ServerQuery.bincode_deserialize b = some v ∧
          ServerQuery.bincode_serialize v = b) ∧
    (∀ (b : List Nat) (r : ServerResult), r.wf = true →
        b = ServerResult.bincode_serialize r →
        ∃ v, ServerResult.bincode_deserialize b = some v ∧
          ServerResult.bincode_serialize v = b) := by
  refine ⟨fun q h => serverQuery_roundtrip q h,
    fun r h => serverResult_roundtrip r h,
    fun q h extra => decServerQuery_enc q h extra,
    fun r h extra => decServerResult_enc r h extra, ?_, ?_⟩
  · intro b q h hb
    subst hb
    exact ⟨q, serverQuery_roundtrip q h, rfl⟩
  · intro b r h hb
    subst hb
    exact ⟨r, serverResult_roundtrip r h, rfl⟩

/-- Witness for C2 at a concrete query batch and a concrete response
envelope. -/
theorem bincode_roundtrip_witness :
    (ServerQuery.mk [Query.ping] (some [116])).wf = true ∧
    ServerQuery.bincode_deserialize (ServerQuery.bincode_serialize
      (ServerQuery.mk [Query.ping] (some [116]))) =
      some (ServerQuery.mk [Query.ping] (some [116])) ∧
    (ServerResult.mk [Result.ok .pong, Result.err [98]]).wf = true ∧
    ServerResult.bincode_deserialize (ServerResult.bincode_serialize
      (ServerResult.mk [Result.ok .pong, Result.err [98]])) =
      some (ServerResult.mk [Result.ok .pong, Result.err [98]]) :=
  ⟨by decide, bincode_roundtrip.1 _ (by decide), by decide,
    bincode_roundtrip.2.1 _ (by decide)⟩

/-- C3 (code defect): when the peer has closed the connection so that every
`conn.recv` returns zero bytes (modelled as an exhausted stream), the
8-byte header read of `receive` never completes under any iteration bound —
each loop pass appends zero bytes and `size_to_read` never decreases — so
`receive` loops forever instead of raising
`AhnlichProtocolException("socket connection broken")`; the
`header == b""` check is unreachable. -/
theorem receive_closed_peer_diverges :
    receiveResult ([] : List Nat) = RecvOutcome.diverges ∧
    ∀ fuel size : Nat, bufRecvF fuel ([] : List Nat) 8 size = none := by
  have hdiv : ∀ fuel size : Nat, bufRecvF fuel ([] : List Nat) 8 size = none :=
    fun fuel size => bufRecvF_closed_none fuel 8 size (by omega)
  refine ⟨?_, hdiv⟩
  simp [receiveResult, receivePayload, bufRecv, hdiv]

/-- C4 (amended): every single-shot facade method wraps its request in a
one-element batch and invokes the exchange immediately, but returns the
whole response-list envelope produced by `process_request`; the single
outcome is not unwrapped from its position in the response batch. -/
theorem get_key_one_element_batch_returns_envelope
    (server : List Nat → List Nat) (version : Version) (store_name : List Nat)
    (keys : List Array) (tracing_id : Option (List Nat)) :
    AhnlichDBClient.get_key server version store_name keys tracing_id =
      .ok (process_request server version
        ⟨[Query.getKey store_name keys], tracing_id⟩) := rfl

/-- A reply envelope with two outcomes, and a server double that frames it
as the answer to any request. -/
def twoOutcomeReply : ServerResult := ⟨[Result.ok .pong, Result.ok .unit]⟩

/-- Server double for the two-outcome reply. -/
def twoOutcomeServer : List Nat → List Nat :=
  fun _ => frame ⟨0, 1, 0⟩ (ServerResult.bincode_serialize twoOutcomeReply)

/-- C4 counterexample: a concrete `get_key` call returns the entire
two-outcome envelope, so the method hands back the whole response-list
envelope rather than only the single outcome unwrapped from its
position. -/
theorem get_key_counterexample :
    AhnlichDBClient.get_key twoOutcomeServer ⟨0, 1, 0⟩ [83] [] none =
      .ok (.ok twoOutcomeReply) ∧ twoOutcomeReply.results.length = 2 := by
  constructor
  · have h1 : AhnlichDBClient.get_key twoOutcomeServer ⟨0, 1, 0⟩ [83] [] none =
        .ok (receiveResult (frame ⟨0, 1, 0⟩
          (ServerResult.bincode_serialize twoOutcomeReply))) := rfl
    rw [h1, receiveResult_frame ⟨0, 1, 0⟩ twoOutcomeReply (by decide) (by decide)]
  · rfl

/-- C5 (amended): the exchange performs no count check between sent
requests and received outcomes: whenever the server's reply frames a
well-formed response envelope, `process_request` returns that envelope
unchanged, also when its outcome count differs from the sent query
count. -/
theorem process_request_no_count_check (server : List Nat → List Nat)
    (version : Version) (message : ServerQuery) (r : ServerResult)
    (hr : r.wf = true)
    (hlen : (ServerResult.bincode_serialize r).length < 256 ^ 8)
    (hs : server (serialize_query version message) =
      frame version (ServerResult.bincode_serialize r)) :
    process_request server version message = .ok r := by
  rw [process_request, hs]
  exact receiveResult_frame version r hr hlen

/-- A batch of two queries, a reply envelope with a single outcome, and a
server double that frames that reply for any request. -/
def twoQueryBatch : ServerQuery := ⟨[Query.ping, Query.listStores], none⟩

/-- Reply envelope with one outcome. -/
def oneOutcomeReply : ServerResult := ⟨[Result.ok .pong]⟩

/-- Server double that answers everything with the one-outcome reply. -/
def mismatchServer : List Nat → List Nat :=
  fun _ => frame ⟨0, 1, 0⟩ (ServerResult.bincode_serialize oneOutcomeReply)

/-- Witness for C5: two requests sent, one outcome received, returned
silently. -/
theorem process_request_no_count_check_witness :
    process_request mismatchServer ⟨0, 1, 0⟩ twoQueryBatch = .ok oneOutcomeReply :=
  process_request_no_count_check mismatchServer ⟨0, 1, 0⟩ twoQueryBatch
    oneOutcomeReply (by decide) (by decide) rfl

/-- C5 counterexample: a concrete exchange that sends N = 2 requests and
decodes M = 1 outcomes returns the mismatched outcome list silently instead
of failing with a protocol-violation error. -/
theorem process_request_count_mismatch_counterexample :
    process_request mismatchServer ⟨0, 1, 0⟩ twoQueryBatch = .ok oneOutcomeReply ∧
    twoQueryBatch.queries.length ≠ oneOutcomeReply.results.length := by
  constructor
  · have h : process_request mismatchServer ⟨0, 1, 0⟩ twoQueryBatch =
        receiveResult (frame ⟨0, 1, 0⟩
          (ServerResult.bincode_serialize oneOutcomeReply)) := rfl
    rw [h]
    exact receiveResult_frame _ _ (by decide) (by decide)
  · decide

/-- Pool bookkeeping events (checkout or release). -/
def isPoolEvent : ConnEvent → Bool
  | .checkout _ => true
  | .release _ => true
  | _ => false

/-- The connection events of `AhnlichProtocol.send` (ahnlich_client_py/
protocol.py lines 48-51): the method opens its own
`with self.connect_generator as conn:` block just for the write. -/
def ahnlichProtocolSendEvents (conn : Nat) (version : Version)
    (message : ServerQuery) : List ConnEvent :=
  withConnection conn fun c => [ConnEvent.send c (serialize_query version message)]

/-- The connection events of `AhnlichProtocol.receive` (ahnlich_client_py/
protocol.py lines 53-71): the method opens its own
`with self.connect_generator as conn:` block just for the read. -/
def ahnlichProtocolReceiveEvents (conn : Nat) : List ConnEvent :=
  withConnection conn fun c => [ConnEvent.recv c]

/-- The connection events of `AhnlichProtocol.process_request`
(ahnlich_client_py/protocol.py lines 73-78): `self.send(message)` then
`self.receive()`, each with its own pool checkout; the pool is free to
hand the second checkout any connection, so the two checkouts are
independent parameters. -/
def ahnlichProtocolProcessRequestEvents (connSend connRecv : Nat)
    (version : Version) (message : ServerQuery) : List ConnEvent :=
  ahnlichProtocolSendEvents connSend version message ++
  ahnlichProtocolReceiveEvents connRecv

/-- C6 (amended): in `BaseClient.process_request`
(internals/base_client.py) the framed request bytes are written to and the
response read from the one connection bound by the single `with` block,
whose only pool interactions are the checkout at the start and the release
at the end; but in the `AhnlichProtocol` revision
(ahnlich_client_py/protocol.py) `send` and `receive` each check out and
release a pooled connection of their own, so there the connection is
returned to the pool between the send step and the receive step and the
receive may run on a different connection. -/
theorem exchange_connection_discipline :
    (∀ (conn : Nat) (version : Version) (message : ServerQuery),
      processRequestEvents conn version message =
        [ConnEvent.checkout conn,
         ConnEvent.send conn (serialize_query version message),
         ConnEvent.recv conn, ConnEvent.release conn] ∧
      (∀ c bs, ConnEvent.send c bs ∈ processRequestEvents conn version message →
        c = conn) ∧
      (∀ c, ConnEvent.recv c ∈ processRequestEvents conn version message →
        c = conn) ∧
      (processRequestEvents conn version message).filter isPoolEvent =
        [ConnEvent.checkout conn, ConnEvent.release conn]) ∧
    (∀ (connSend connRecv : Nat) (version : Version) (message : ServerQuery),
      ahnlichProtocolProcessRequestEvents connSend connRecv version message =
        [ConnEvent.checkout connSend,
         ConnEvent.send connSend (serialize_query version message),
         ConnEvent.release connSend,
         ConnEvent.checkout connRecv, ConnEvent.recv connRecv,
         ConnEvent.release connRecv]) := by
  constructor
  · intro conn version message
    refine ⟨rfl, ?_, ?_, rfl⟩
    · intro c bs hmem
      simp [processRequestEvents, withConnection] at hmem
      exact hmem.1
    · intro c hmem
      simp [processRequestEvents, withConnection] at hmem
      exact hmem
  · intro connSend connRecv version message
    rfl

/-- C6 counterexample: a concrete `AhnlichProtocol.process_request`
exchange in which the send goes to connection 0, which is then released
back to the pool, and the receive happens on a freshly checked-out
connection 1 — the request and response do not share one exclusively held
connection, and a release and re-checkout occur between send and
receive. -/
theorem ahnlichProtocol_separate_checkouts_counterexample :
    ahnlichProtocolProcessRequestEvents 0 1 ⟨0, 1, 0⟩ ⟨[Query.ping], none⟩ =
      [ConnEvent.checkout 0,
       ConnEvent.send 0 (serialize_query ⟨0, 1, 0⟩ ⟨[Query.ping], none⟩),
       ConnEvent.release 0, ConnEvent.checkout 1, ConnEvent.recv 1,
       ConnEvent.release 1] ∧
    (0 : Nat) ≠ 1 :=
  ⟨rfl, by decide⟩

/-- C7: the builder's `get_sim_n` with a non-positive `closest_n` raises
the local validation error before the request is appended to the pending
batch (the error return models the exception thrown inside
`NonZeroSizeInteger` before the `append`, leaving the pending list
untouched) and before any bytes reach a socket (the builder performs no
I/O; bytes are only written later by `exec`/`process_request`). -/
theorem get_sim_n_nonpositive (b : AhnlichDBRequestBuilder)
    (store_name : List Nat) (search_input : Array) (closest_n : Int)
    (algorithm : Algorithm) (condition : Option PredicateCondition)
    (h : closest_n ≤ 0) :
    b.get_sim_n store_name search_input closest_n algorithm condition =
      .error "Ahnlich expects a Non zero value as integers" := by
  simp [AhnlichDBRequestBuilder.get_sim_n, NonZeroSizeInteger.make, h]

/-- Witness for C7 at `closest_n = 0` and `closest_n = -1`. -/
theorem get_sim_n_nonpositive_witness :
    (AhnlichDBRequestBuilder.mk [] none).get_sim_n [83] ⟨1, 1, []⟩ 0
      .cosineSimilarity none =
      .error "Ahnlich expects a Non zero value as integers" ∧
    (AhnlichDBRequestBuilder.mk [] none).get_sim_n [83] ⟨1, 1, []⟩ (-1)
      .cosineSimilarity none =
      .error "Ahnlich expects a Non zero value as integers" :=
  ⟨get_sim_n_nonpositive _ _ _ _ _ _ (by decide),
   get_sim_n_nonpositive _ _ _ _ _ _ (by decide)⟩

/-- C8: a successful `to_server_query` consumes the builder — it returns a
`ServerQuery` carrying the accumulated requests and clears the pending
list — and calling `to_server_query` (or `exec`) on a builder whose
pending list is empty, in particular one just consumed and not refilled,
raises instead of producing an empty request list. -/
theorem to_server_query_consumes (b : AhnlichDBRequestBuilder) :
    (b.queries ≠ [] →
      b.to_server_query = .ok (⟨b.queries, b.tracing_id⟩, b.drop) ∧
      b.drop.queries = [] ∧
      b.drop.to_server_query =
        .error "Must have atleast one request to be processed" ∧
      ∀ (server : List Nat → List Nat) (version : Version),
        b.drop.exec server version =
          .error "Must have atleast one request to be processed") ∧
    (b.queries = [] →
      b.to_server_query =
        .error "Must have atleast one request to be processed") := by
  constructor
  · intro h
    have hne : b.queries.isEmpty = false := by
      cases hq : b.queries with
      | nil => exact absurd hq h
      | cons x xs => simp [hq]
    refine ⟨?_, rfl, ?_, ?_⟩
    · simp [AhnlichDBRequestBuilder.to_server_query, hne]
    · simp [AhnlichDBRequestBuilder.to_server_query, AhnlichDBRequestBuilder.drop]
    · intro server version
      simp [AhnlichDBRequestBuilder.exec, AhnlichDBRequestBuilder.to_server_query,
        AhnlichDBRequestBuilder.drop]
  · intro h
    simp [AhnlichDBRequestBuilder.to_server_query, h]

/-- Witness for C8 at a one-request builder and at the emptied builder. -/
theorem to_server_query_consumes_witness :
    (AhnlichDBRequestBuilder.mk [Query.ping] none).to_server_query =
      .ok (⟨[Query.ping], none⟩, AhnlichDBRequestBuilder.mk [] none) ∧
    (AhnlichDBRequestBuilder.mk [] none).to_server_query =
      .error "Must have atleast one request to be processed" :=
  ⟨((to_server_query_consumes (AhnlichDBRequestBuilder.mk [Query.ping] none)).1
      (by decide)).1,
   (to_server_query_consumes (AhnlichDBRequestBuilder.mk [] none)).2 rfl⟩

/-- C9: unframing a stream that contains the framed message for a payload
delivers exactly that payload to the decoder — for payload length 0, 1, or
beyond the reader's 1024-byte chunk size (the loop assembles it over
several reads), any length below the u64 length-field bound. -/
theorem unframe_frame (version : Version) (p : List Nat)
    (h : p.length < 256 ^ 8) :
    receivePayload (frame version p) = RecvOutcome.ok p :=
  receivePayload_frame version p h

/-- Witness for C9 at payload lengths 0, 1 and 1025 (more than one
1024-byte read). -/
theorem unframe_frame_witness :
    receivePayload (frame ⟨0, 1, 0⟩ []) = RecvOutcome.ok [] ∧
    receivePayload (frame ⟨0, 1, 0⟩ [7]) = RecvOutcome.ok [7] ∧
    receivePayload (frame ⟨0, 1, 0⟩ (List.replicate 1025 3)) =
      RecvOutcome.ok (List.replicate 1025 3) :=
  ⟨unframe_frame ⟨0, 1, 0⟩ [] (by decide),
   unframe_frame ⟨0, 1, 0⟩ [7] (by decide),
   unframe_frame ⟨0, 1, 0⟩ (List.replicate 1025 3)
     (by simp only [List.length_replicate]; norm_num)⟩

/-- C10: for every platform, peek outcome and socket state,
`check_aliveness` consumes no application bytes from the stream (the
one-byte read is a `MSG_PEEK`) and restores the socket's timeout to
exactly the value it had before the check. -/
theorem check_aliveness_preserves_socket {T : Type} (isWindows : Bool)
    (tiny zero : T) (behavior : PeekBehavior) (s : Sock T) :
    (check_aliveness isWindows tiny zero behavior s).1.timeout = s.timeout ∧
    (check_aliveness isWindows tiny zero behavior s).1.buffer = s.buffer := by
  cases behavior <;> simp [check_aliveness]

end Ahnlich
